import Mathlib

/-!
# Minimal BASIC: the program store

A shallow embedding of `src/program.cpp` (the `Program` class: a vector of
line numbers plus a map from line number to `SourceLine` record) and the
first/next traversal used by `listCommand` and `runCommand` in
`src/Basic.cpp`.

Conventions of the embedding:

* C++ `int` line numbers and indices are `Int`; the program only compares line
  numbers and adds one to indices bounded by the vector size, so no overflow
  arises.
* `Vector<int>` is a `List Int`; an index outside the vector raises the
  library's error, modelled as `Failure.indexOutOfRange`.
* `Map<int, SourceLine*>` is an association list ordered by key.  The map holds
  pointers; `Map::get` on a missing key returns the default value of the value
  type, the null pointer, and `Map::operator[]` on a missing key creates an
  entry holding the null pointer.  The source dereferences the result at once
  in both cases, which is modelled as `Failure.nullDereference`.
* `Statement*` is `Option Stmt` (`none` is `NULL`); the store never looks
  inside a statement, so `Stmt` is a parameter.
-/

namespace Basic

/-- The ways a call can fail to return normally. -/
inductive Failure where
  /-- The error raised by `Vector` for an index outside the vector. -/
  | indexOutOfRange
  /-- A member access or method call through a null pointer: the pointer
  obtained for a missing key, or the `NULL` statement of a line. -/
  | nullDereference
  /-- A loop was cut off by the model before it reached `-1`. -/
  | outOfFuel
  /-- The error the expression evaluator raises for a variable never set. -/
  | undefinedVariable
  /-- The error the expression evaluator raises for a zero divisor. -/
  | divisionByZero
  /-- The error `parseStatement` and the statement constructors raise. -/
  | syntaxError
  /-- The console has no further integer for `getInteger`. -/
  | endOfInput
  deriving DecidableEq, Repr

/-- Modelled from the spec: `program.h` is not among the sources; the record
has the three fields that `program.cpp` reads and writes (`lineString`,
`lineNumbersIndex`, `lineParsed`), the spec's Source Line with its raw text and
optional parsed statement. -/
structure SourceLine (Stmt : Type) where
  lineString : String
  lineNumbersIndex : Int
  lineParsed : Option Stmt
  deriving DecidableEq, Repr

/-- Modelled from the spec: `program.h` is not among the sources; the class has
the two members `program.cpp` uses, the ordering structure `lineNumbers`
(a `Vector<int>`) and the keyed collection `storage`
(a `Map<int, SourceLine*>`). -/
structure Program (Stmt : Type) where
  lineNumbers : List Int
  storage : List (Int × SourceLine Stmt)
  deriving DecidableEq, Repr

/-- The sentinel `END_PROGRAM_LINE_NUMBER` of `Basic.cpp`. -/
def END_PROGRAM_LINE_NUMBER : Int := -1

section Library

variable {V : Type}

/-- `Vector::operator[]`: the element at `i`, an error outside the vector. -/
def vecGet (v : List Int) (i : Int) : Except Failure Int :=
  if 0 ≤ i ∧ i < v.length then
    match v.get? i.toNat with
    | some x => .ok x
    | none => .error .indexOutOfRange
  else .error .indexOutOfRange

/-- `Vector::insert(i, x)`: inserts `x` before position `i`, which may be the
size of the vector; an error for any other index outside the vector. -/
def vecInsert (v : List Int) (i : Int) (x : Int) : Except Failure (List Int) :=
  if 0 ≤ i ∧ i ≤ v.length then .ok (v.take i.toNat ++ x :: v.drop i.toNat)
  else .error .indexOutOfRange

/-- `Vector::remove(i)`: removes the element at position `i`, an error outside
the vector. -/
def vecRemove (v : List Int) (i : Int) : Except Failure (List Int) :=
  if 0 ≤ i ∧ i < v.length then .ok (v.eraseIdx i.toNat)
  else .error .indexOutOfRange

/-- The entry stored under `k`, if any: `Map::get` returns its value and the
default value (the null pointer) when this is `none`. -/
def mapGet : List (Int × V) → Int → Option V
  | [], _ => none
  | (k', v) :: m, k => if k = k' then some v else mapGet m k

/-- `Map::containsKey`. -/
def mapContainsKey (m : List (Int × V)) (k : Int) : Bool :=
  (mapGet m k).isSome

/-- `Map::put`: replaces the value of an existing key, or adds the key. -/
def mapPut : List (Int × V) → Int → V → List (Int × V)
  | [], k, v => [(k, v)]
  | (k', v') :: m, k, v =>
    if k = k' then (k, v) :: m
    else if k < k' then (k, v) :: (k', v') :: m
    else (k', v') :: mapPut m k v

/-- `Map::remove`: removes the key when present, does nothing otherwise. -/
def mapRemove : List (Int × V) → Int → List (Int × V)
  | [], _ => []
  | (k', v) :: m, k => if k = k' then mapRemove m k else (k', v) :: mapRemove m k

end Library

section Store

variable {Stmt : Type}

/-- The program right after construction: no lines. -/
def Program.empty : Program Stmt := ⟨[], []⟩

/-- `Program::clear`: the loop only frees each record; then both members are
cleared. -/
def clear (_p : Program Stmt) : Program Stmt :=
  { lineNumbers := [], storage := [] }

/-- The insertion loop of `addSourceLine`,
`for (int i = size - 1; i >= 0; i--)`; the first argument is `i + 1`, the state
is the vector and `newLineNumberIndex`. -/
def insertLoop (lineNumber : Int) :
    Nat → List Int × Int → Except Failure (List Int × Int)
  | 0, st => .ok st
  | i + 1, (v, idx) => do
    let x ← vecGet v i
    if lineNumber > x then
      let v' ← vecInsert v ((i : Int) + 1) lineNumber
      .ok (v', (i : Int))
    else if i = 0 then
      let v' ← vecInsert v 0 lineNumber
      insertLoop lineNumber i (v', (i : Int))
    else
      insertLoop lineNumber i (v, idx)

/-- The last loop of `addSourceLine`,
`for (int i = 0; i < size; i++) storage[lineNumbers[i]]->lineNumbersIndex = i`;
the first argument is the number of iterations left.  `storage[key]` on a
missing key yields the null pointer, and the assignment through it fails. -/
def reindexLoop (v : List Int) :
    Nat → Int → List (Int × SourceLine Stmt) → Except Failure (List (Int × SourceLine Stmt))
  | 0, _, m => .ok m
  | n + 1, i, m => do
    let key ← vecGet v i
    match mapGet m key with
    | none => .error .nullDereference
    | some sl => reindexLoop v n (i + 1) (mapPut m key { sl with lineNumbersIndex := i })

/-- The first half of `addSourceLine`: puts the line number into the vector.
`newLineNumberIndex` is declared without a value; every path assigns it before
it is read, and the model starts it at `0`. -/
def insertLineNumber (lineNumbers : List Int) (lineNumber : Int) :
    Except Failure (List Int × Int) :=
  if lineNumbers.isEmpty then .ok (lineNumbers ++ [lineNumber], 0)
  else insertLoop lineNumber lineNumbers.length (lineNumbers, 0)

/-- `Program::addSourceLine`: the vector insertion, then a fresh record put
under the line number, then the loop that rewrites every record's index. -/
def addSourceLine (p : Program Stmt) (lineNumber : Int) (line : String) :
    Except Failure (Program Stmt) := do
  let (v, newLineNumberIndex) ← insertLineNumber p.lineNumbers lineNumber
  let newSourceLine : SourceLine Stmt :=
    { lineString := line, lineNumbersIndex := newLineNumberIndex, lineParsed := none }
  let storage := mapPut p.storage lineNumber newSourceLine
  let storage ← reindexLoop v v.length 0 storage
  .ok { lineNumbers := v, storage := storage }

/-- `Program::removeSourceLine`: the index is read through the pointer that
`storage.get` returns, with no test for a missing key. -/
def removeSourceLine (p : Program Stmt) (lineNumber : Int) :
    Except Failure (Program Stmt) :=
  match mapGet p.storage lineNumber with
  | none => .error .nullDereference
  | some sl => do
    let v ← vecRemove p.lineNumbers sl.lineNumbersIndex
    .ok { lineNumbers := v, storage := mapRemove p.storage lineNumber }

/-- `Program::getSourceLine`: the text is read through the pointer that
`storage.get` returns, with no test for a missing key. -/
def getSourceLine (p : Program Stmt) (lineNumber : Int) : Except Failure String :=
  match mapGet p.storage lineNumber with
  | none => .error .nullDereference
  | some sl => .ok sl.lineString

/-- `Program::setParsedStatement`: stores the statement when the key is
present; the source has no other branch, so the call returns normally with
the program as it was when the key is missing. -/
def setParsedStatement (p : Program Stmt) (lineNumber : Int) (stmt : Option Stmt) :
    Except Failure (Program Stmt) :=
  if mapContainsKey p.storage lineNumber then
    match mapGet p.storage lineNumber with
    | none => .error .nullDereference
    | some sl => .ok { p with storage := mapPut p.storage lineNumber { sl with lineParsed := stmt } }
  else .ok p

/-- `Program::getParsedStatement`. -/
def getParsedStatement (p : Program Stmt) (lineNumber : Int) : Option Stmt :=
  if mapContainsKey p.storage lineNumber then
    match mapGet p.storage lineNumber with
    | none => none
    | some sl => sl.lineParsed
  else none

/-- `Program::getFirstLineNumber`. -/
def getFirstLineNumber (p : Program Stmt) : Int :=
  match p.lineNumbers with
  | [] => -1
  | x :: _ => x

/-- `Program::getNextLineNumber`. -/
def getNextLineNumber (p : Program Stmt) (lineNumber : Int) : Except Failure Int :=
  if !p.lineNumbers.isEmpty then
    match mapGet p.storage lineNumber with
    | none => .error .nullDereference
    | some sl =>
      let nextLineNumberIndex := sl.lineNumbersIndex + 1
      if nextLineNumberIndex < p.lineNumbers.length ∧ p.lineNumbers.length ≠ 0 then
        vecGet p.lineNumbers nextLineNumberIndex
      else .ok (-1)
  else .ok (-1)

/-- The loop of `listCommand`,
`while (cur != -1) { visit cur; cur = getNextLineNumber(cur); }`, collecting
the visited line numbers; `fuel` bounds the number of iterations. -/
def traverseLoop (p : Program Stmt) : Nat → Int → Except Failure (List Int)
  | 0, cur => if cur = END_PROGRAM_LINE_NUMBER then .ok [] else .error .outOfFuel
  | fuel + 1, cur =>
    if cur = END_PROGRAM_LINE_NUMBER then .ok []
    else do
      let next ← getNextLineNumber p cur
      let rest ← traverseLoop p fuel next
      .ok (cur :: rest)

/-- The line numbers met by `getFirstLineNumber` followed by repeated
`getNextLineNumber` until `-1`. -/
def traversal (p : Program Stmt) (fuel : Nat) : Except Failure (List Int) :=
  traverseLoop p fuel (getFirstLineNumber p)

/-- One call of the store's mutating interface. -/
inductive Call (Stmt : Type) where
  | add (lineNumber : Int) (line : String)
  | setParsed (lineNumber : Int) (stmt : Option Stmt)
  | remove (lineNumber : Int)
  | clearAll
  deriving DecidableEq, Repr

/-- Performs one call. -/
def Call.run (p : Program Stmt) : Call Stmt → Except Failure (Program Stmt)
  | .add l t => addSourceLine p l t
  | .setParsed l s => setParsedStatement p l s
  | .remove l => removeSourceLine p l
  | .clearAll => .ok (clear p)

/-- Performs the calls from left to right, stopping at the first failure. -/
def runCalls : Program Stmt → List (Call Stmt) → Except Failure (Program Stmt)
  | p, [] => .ok p
  | p, c :: cs => do
    let p' ← c.run p
    runCalls p' cs

/-- Enters the lines from left to right with `addSourceLine`. -/
def addLines : Program Stmt → List (Int × String) → Except Failure (Program Stmt)
  | p, [] => .ok p
  | p, (l, t) :: es => do
    let p' ← addSourceLine p l t
    addLines p' es

/-- The keys of the storage map. -/
def storedKeys (p : Program Stmt) : List Int :=
  p.storage.map Prod.fst

/-- The consistency invariant of the spec's data model: the ordering structure
is strictly ascending and holds exactly the keys of the keyed collection. -/
def Consistent (p : Program Stmt) : Prop :=
  p.lineNumbers.Pairwise (· < ·) ∧ ∀ k, k ∈ p.lineNumbers ↔ k ∈ storedKeys p

/-- Proof device: puts `x` in front of the first element smaller than `x`, at
the end when there is none.  On the reversed vector this is the effect of the
insertion loop, which scans from the last position down. -/
def insertRev (x : Int) : List Int → List Int
  | [] => [x]
  | y :: r => if x > y then x :: y :: r else y :: insertRev x r

/-- Proof device: `n` is the position of the last occurrence of `k` in `v`. -/
def IsLastAt (v : List Int) (k : Int) (n : Int) : Prop :=
  ∃ A B, v = A ++ k :: B ∧ k ∉ B ∧ n = (A.length : Int)

/-- Proof device: what every state built by `addSourceLine` alone satisfies:
the vector is ascending, possibly with repeats, and each of its elements is a
key whose record holds the position of the element's last occurrence. -/
def Indexed (p : Program Stmt) : Prop :=
  p.lineNumbers.Pairwise (· ≤ ·) ∧
    ∀ k ∈ p.lineNumbers, ∃ sl, mapGet p.storage k = some sl ∧
      IsLastAt p.lineNumbers k sl.lineNumbersIndex

/-- Proof device: every element of the vector is a key of the map. -/
def VectorStored (p : Program Stmt) : Prop :=
  ∀ k ∈ p.lineNumbers, mapContainsKey p.storage k = true

/-- Whether the call is a `removeSourceLine`. -/
def Call.isRemove : Call Stmt → Bool
  | .remove _ => true
  | _ => false

end Store

/-!
# The variable table, the statements and the driver

A shallow embedding of `src/evalstate.cpp`, of the `execute` methods of
`src/statement.cpp` and of `runCommand` and `lineNumberCommand` of
`src/Basic.cpp`.

* `EvalState &` is passed by reference and statements raise errors half way;
  a step therefore returns the state it left behind together with the failure,
  if any.
* The console is the list of integers written by `PRINT`, oldest first, and the
  list of integers still to be read by `getInteger`; the prompt of `INPUT` is
  not recorded.
* The expression evaluator (`exp.cpp`) and the parser (`parser.cpp`) are not
  among the sources.  The statements and the driver take the expression type
  `Exp` and its evaluator `eval` as parameters, and `lineNumberCommand` takes
  the result of `parseStatement` as a parameter.
-/

section Evaluation

/-- `Map<string, int>::get`, `none` for a missing key (where `Map::get` returns
the default value `0`). -/
def tableGet : List (String × Int) → String → Option Int
  | [], _ => none
  | (k, v) :: t, var => if var = k then some v else tableGet t var

/-- `Map<string, int>::put`: replaces the value of an existing key, or adds the
key. -/
def tablePut : List (String × Int) → String → Int → List (String × Int)
  | [], var, value => [(var, value)]
  | (k, v) :: t, var, value =>
    if var = k then (k, value) :: t else (k, v) :: tablePut t var value

/-- Modelled from the spec: `evalstate.h` is not among the sources; the class
has the two members `evalstate.cpp` uses, the symbol table (the spec's mapping
from variable name to integer value) and the current-line register. -/
structure EvalState where
  symbolTable : List (String × Int)
  currentLine : Int
  deriving DecidableEq, Repr

/-- `EvalState::setValue`. -/
def EvalState.setValue (state : EvalState) (var : String) (value : Int) : EvalState :=
  { state with symbolTable := tablePut state.symbolTable var value }

/-- `EvalState::getValue`: `symbolTable.get(var)`, which is `0` for a name that
is not in the table. -/
def EvalState.getValue (state : EvalState) (var : String) : Int :=
  (tableGet state.symbolTable var).getD 0

/-- `EvalState::isDefined`. -/
def EvalState.isDefined (state : EvalState) (var : String) : Bool :=
  (tableGet state.symbolTable var).isSome

/-- `EvalState::setCurrentLine`. -/
def EvalState.setCurrentLine (state : EvalState) (lineNumber : Int) : EvalState :=
  { state with currentLine := lineNumber }

/-- `EvalState::getCurrentLine`. -/
def EvalState.getCurrentLine (state : EvalState) : Int :=
  state.currentLine

/-- The statement classes of `statement.h` with their private members. -/
inductive Statement (Exp : Type) where
  | RemStmt
  | LetStmt (name : String) (exp : Exp)
  | PrintStmt (exp : Exp)
  | InputStmt (name : String)
  | GoToStmt (goingToLineNumber : Int)
  | IfStmt (lhs rhs : Exp) (comparison : String) (goingToLineNumber : Int)
  | EndStmt
  deriving DecidableEq, Repr

/-- What a statement works on: the variable table and the console. -/
structure Machine where
  state : EvalState
  output : List Int
  input : List Int
  deriving DecidableEq, Repr

/-- The machine with the current-line register set. -/
def Machine.setCurrentLine (m : Machine) (lineNumber : Int) : Machine :=
  { m with state := m.state.setCurrentLine lineNumber }

/-- What `execute` leaves behind: the machine, and the error it raised if it
did not return normally. -/
structure Executed where
  machine : Machine
  failure : Option Failure
  deriving DecidableEq, Repr

variable {Exp : Type}

/-- The `execute` methods of `statement.cpp`.  `eval` stands for
`Expression::eval`: it reads the state and returns an integer or raises an
error. -/
def Statement.execute (eval : Exp → EvalState → Except Failure Int) :
    Statement Exp → Machine → Executed
  | .RemStmt, m => ⟨m, none⟩
  | .LetStmt name exp, m =>
    match eval exp m.state with
    | .error f => ⟨m, some f⟩
    | .ok expEval => ⟨{ m with state := m.state.setValue name expEval }, none⟩
  | .PrintStmt exp, m =>
    match eval exp m.state with
    | .error f => ⟨m, some f⟩
    | .ok v => ⟨{ m with output := m.output ++ [v] }, none⟩
  | .InputStmt name, m =>
    match m.input with
    | [] => ⟨m, some .endOfInput⟩
    | inputPrompt :: rest =>
      ⟨{ m with state := m.state.setValue name inputPrompt, input := rest }, none⟩
  | .GoToStmt goingToLineNumber, m => ⟨m.setCurrentLine goingToLineNumber, none⟩
  | .IfStmt lhs rhs comparison goingToLineNumber, m =>
    match eval lhs m.state with
    | .error f => ⟨m, some f⟩
    | .ok lhsEval =>
      match eval rhs m.state with
      | .error f => ⟨m, some f⟩
      | .ok rhsEval =>
        if (comparison = "=" ∧ lhsEval = rhsEval) ∨ (comparison = ">" ∧ lhsEval > rhsEval)
            ∨ (comparison = "<" ∧ lhsEval < rhsEval) then
          ⟨m.setCurrentLine goingToLineNumber, none⟩
        else ⟨m, none⟩
  | .EndStmt, m => ⟨m.setCurrentLine (-1), none⟩

/-- What a run leaves behind: the machine, the line numbers whose statement
was executed, in order, and the failure that stopped the run, `none` when the
loop ended with the current line at `-1`. -/
structure RunResult where
  machine : Machine
  executed : List Int
  failure : Option Failure
  deriving DecidableEq, Repr

/-- The run that executed line `lineNumber` first and then went on as `r`. -/
def RunResult.after (lineNumber : Int) (r : RunResult) : RunResult :=
  { r with executed := lineNumber :: r.executed }

/-- The loop of `runCommand`; `fuel` bounds the number of iterations.  The
statement pointer is used without a test: a `NULL` from `getParsedStatement`
is a call through the null pointer. -/
def runLoop (eval : Exp → EvalState → Except Failure Int) (program : Program (Statement Exp)) :
    Nat → Int → Machine → RunResult
  | 0, currentLineNumber, m =>
    if currentLineNumber = END_PROGRAM_LINE_NUMBER then ⟨m, [], none⟩
    else ⟨m, [], some .outOfFuel⟩
  | fuel + 1, currentLineNumber, m =>
    if currentLineNumber = END_PROGRAM_LINE_NUMBER then ⟨m, [], none⟩
    else
      match getParsedStatement program currentLineNumber with
      | none => ⟨m, [], some .nullDereference⟩
      | some stmt =>
        let e := stmt.execute eval m
        match e.failure with
        | some f => ⟨e.machine, [currentLineNumber], some f⟩
        | none =>
          if currentLineNumber ≠ e.machine.state.getCurrentLine then
            (runLoop eval program fuel e.machine.state.getCurrentLine e.machine).after
              currentLineNumber
          else
            match getNextLineNumber program currentLineNumber with
            | .error f => ⟨e.machine, [currentLineNumber], some f⟩
            | .ok next =>
              (runLoop eval program fuel next (e.machine.setCurrentLine next)).after
                currentLineNumber

/-- `runCommand`. -/
def runCommand (eval : Exp → EvalState → Except Failure Int) (program : Program (Statement Exp))
    (m : Machine) (fuel : Nat) : RunResult :=
  let currentLineNumber := getFirstLineNumber program
  runLoop eval program fuel currentLineNumber (m.setCurrentLine currentLineNumber)

/-- `lineNumberCommand`; `parsed` is what `parseStatement` does on the rest of
the line, a statement or a raised error.  A raised error leaves the program as
`addSourceLine` left it and is returned beside it; a failure of the store
itself is the outer error. -/
def lineNumberCommand {Stmt : Type} (program : Program Stmt) (intLineNumber : Int)
    (line : String) (parsed : Except Failure Stmt) :
    Except Failure (Program Stmt × Option Failure) :=
  match addSourceLine program intLineNumber line with
  | .error f => .error f
  | .ok p1 =>
    match parsed with
    | .error f => .ok (p1, some f)
    | .ok stmt =>
      match setParsedStatement p1 intLineNumber (some stmt) with
      | .error f => .error f
      | .ok p2 => .ok (p2, none)

/-- Enters the lines from left to right with `lineNumberCommand`, each with
the statement its text parses to. -/
def enterLines {Stmt : Type} :
    Program Stmt → List (Int × String × Stmt) → Except Failure (Program Stmt)
  | p, [] => .ok p
  | p, (l, t, stmt) :: es =>
    match lineNumberCommand p l t (.ok stmt) with
    | .error f => .error f
    | .ok (p', _) => enterLines p' es

/-- The statements after which the driver always goes on to the next line:
comment, assignment and print. -/
def Statement.isSequential : Statement Exp → Bool
  | .RemStmt => true
  | .LetStmt _ _ => true
  | .PrintStmt _ => true
  | _ => false

/-- The expressions a statement evaluates. -/
def Statement.exps : Statement Exp → List Exp
  | .LetStmt _ exp => [exp]
  | .PrintStmt exp => [exp]
  | .IfStmt lhs rhs _ _ => [lhs, rhs]
  | _ => []

/-- The reference run of the claim about programs without jumps: the
statements of the given lines are executed one after the other, each with the
register at its line, up to the first failure. -/
def runInOrder (eval : Exp → EvalState → Except Failure Int) (program : Program (Statement Exp)) :
    List Int → Machine → RunResult
  | [], m => ⟨m.setCurrentLine (-1), [], none⟩
  | l :: rest, m =>
    match getParsedStatement program l with
    | none => ⟨m.setCurrentLine l, [], some .nullDereference⟩
    | some stmt =>
      let e := stmt.execute eval (m.setCurrentLine l)
      match e.failure with
      | some f => ⟨e.machine, [l], some f⟩
      | none => (runInOrder eval program rest e.machine).after l

/-- Whether executing the statement in `m` moves the register to `target`: a
`GOTO target`, or an `IF` to `target` whose operands evaluate and whose
comparison holds. -/
def Statement.jumpsTo (eval : Exp → EvalState → Except Failure Int) (m : Machine)
    (target : Int) : Statement Exp → Prop
  | .GoToStmt n => n = target
  | .IfStmt lhs rhs comparison n =>
    n = target ∧ ∃ l r, eval lhs m.state = .ok l ∧ eval rhs m.state = .ok r ∧
      ((comparison = "=" ∧ l = r) ∨ (comparison = ">" ∧ l > r) ∨ (comparison = "<" ∧ l < r))
  | _ => False

end Evaluation

section Expressions

/-- Modelled from the spec: `exp.h` and `exp.cpp` are not among the sources;
the four operators of the spec's expression trees. -/
inductive Operator where
  | plus
  | minus
  | times
  | divide
  deriving DecidableEq, Repr

/-- Modelled from the spec: `exp.h` and `exp.cpp` are not among the sources;
the spec's tree of addition, subtraction, multiplication, division, identifier
and constant nodes. -/
inductive Expression where
  | constant (value : Int)
  | identifier (name : String)
  | compound (op : Operator) (lhs rhs : Expression)
  deriving DecidableEq, Repr

/-- Modelled from the spec: `exp.cpp` is not among the sources; the spec's
`evaluate(variables) -> integer`, failing on a variable never set and on
division by zero. -/
def Expression.eval : Expression → EvalState → Except Failure Int
  | .constant value, _ => .ok value
  | .identifier name, state =>
    if state.isDefined name then .ok (state.getValue name) else .error .undefinedVariable
  | .compound op lhs rhs, state =>
    match lhs.eval state with
    | .error f => .error f
    | .ok l =>
      match rhs.eval state with
      | .error f => .error f
      | .ok r =>
        match op with
        | .plus => .ok (l + r)
        | .minus => .ok (l - r)
        | .times => .ok (l * r)
        | .divide => if r = 0 then .error .divisionByZero else .ok (l.tdiv r)

/-- The lines of the first example program, `10 LET X = 5`, `20 PRINT X`,
`30 END`, each with the statement it parses to. -/
def exampleLetPrintEnd : List (Int × String × Statement Expression) :=
  [(10, "10 LET X = 5", .LetStmt "X" (.constant 5)),
   (20, "20 PRINT X", .PrintStmt (.identifier "X")),
   (30, "30 END", .EndStmt)]

/-- The lines of the second example program, `10 LET X = 0`, `20 X = X + 1`,
`30 IF X < 3 THEN 20`, `40 PRINT X`, each with the statement it parses to;
line 20 is an assignment. -/
def exampleCountToThree : List (Int × String × Statement Expression) :=
  [(10, "10 LET X = 0", .LetStmt "X" (.constant 0)),
   (20, "20 X = X + 1",
      .LetStmt "X" (.compound .plus (.identifier "X") (.constant 1))),
   (30, "30 IF X < 3 THEN 20", .IfStmt (.identifier "X") (.constant 3) "<" 20),
   (40, "40 PRINT X", .PrintStmt (.identifier "X"))]

end Expressions

/-!
# The statement constructors

A shallow embedding of the constructors of `src/statement.cpp`.  The scanner is
the list of tokens it has not yet delivered; a constructor returns the
statement together with the scanner as it leaves it, or the error it raised.
`parseExp` and `readE` (`parser.cpp`) are not among the sources and are
parameters: each takes the scanner and returns an expression and the scanner
as it leaves it, or raises an error.
-/

section Construction

variable {Exp : Type}

/-- `TokenScanner::nextToken`: the next token, the empty string when there is
none. -/
def nextToken (scanner : List String) : String × List String :=
  match scanner with
  | [] => ("", [])
  | token :: rest => (token, rest)

/-- `TokenScanner::hasMoreTokens`. -/
def hasMoreTokens (scanner : List String) : Bool :=
  !scanner.isEmpty

/-- The value of a run of decimal digits, `none` when a character is not a
digit. -/
def digitsToNat : List Char → Nat → Option Nat
  | [], acc => some acc
  | c :: cs, acc =>
    if c.isDigit then digitsToNat cs (10 * acc + (c.toNat - 48)) else none

/-- `stringToInteger` of the string library: the integer that the whole string
denotes, an optional sign and decimal digits within the range of `int`; the
library's error for any other string. -/
def stringToInteger (str : String) : Except Failure Int :=
  let parsed : Option Int :=
    match str.toList with
    | [] => none
    | '-' :: c :: cs => (digitsToNat (c :: cs) 0).map (fun n => -(n : Int))
    | '+' :: c :: cs => (digitsToNat (c :: cs) 0).map (fun n => (n : Int))
    | c :: cs => (digitsToNat (c :: cs) 0).map (fun n => (n : Int))
  match parsed with
  | none => .error .syntaxError
  | some n =>
    if -2147483648 ≤ n ∧ n ≤ 2147483647 then .ok n else .error .syntaxError

/-- `RemStmt::RemStmt`. -/
def newRemStmt (scanner : List String) : Except Failure (Statement Exp × List String) :=
  .ok (.RemStmt, scanner)

/-- `LetStmt::LetStmt`. -/
def newLetStmt (parseExp : List String → Except Failure (Exp × List String))
    (scanner : List String) : Except Failure (Statement Exp × List String) :=
  let (name, s1) := nextToken scanner
  let (equalSign, s2) := nextToken s1
  if equalSign ≠ "=" then .error .syntaxError
  else
    match parseExp s2 with
    | .error f => .error f
    | .ok (exp, s3) => .ok (.LetStmt name exp, s3)

/-- `PrintStmt::PrintStmt`: the one constructor that asks the scanner whether
tokens are left. -/
def newPrintStmt (parseExp : List String → Except Failure (Exp × List String))
    (scanner : List String) : Except Failure (Statement Exp × List String) :=
  match parseExp scanner with
  | .error f => .error f
  | .ok (exp, s1) =>
    if hasMoreTokens s1 then .error .syntaxError else .ok (.PrintStmt exp, s1)

/-- `InputStmt::InputStmt`. -/
def newInputStmt (scanner : List String) : Except Failure (Statement Exp × List String) :=
  let (name, s1) := nextToken scanner
  .ok (.InputStmt name, s1)

/-- `GoToStmt::GoToStmt`. -/
def newGoToStmt (scanner : List String) : Except Failure (Statement Exp × List String) :=
  let (token, s1) := nextToken scanner
  match stringToInteger token with
  | .error f => .error f
  | .ok goingToLineNumber => .ok (.GoToStmt goingToLineNumber, s1)

/-- `IfStmt::IfStmt`. -/
def newIfStmt (readE : List String → Except Failure (Exp × List String))
    (scanner : List String) : Except Failure (Statement Exp × List String) :=
  match readE scanner with
  | .error f => .error f
  | .ok (lhs, s1) =>
    let (comparison, s2) := nextToken s1
    match readE s2 with
    | .error f => .error f
    | .ok (rhs, s3) =>
      let (thenToken, s4) := nextToken s3
      if thenToken ≠ "THEN" then .error .syntaxError
      else
        let (token, s5) := nextToken s4
        match stringToInteger token with
        | .error f => .error f
        | .ok goingToLineNumber => .ok (.IfStmt lhs rhs comparison goingToLineNumber, s5)

/-- `EndStmt::EndStmt`. -/
def newEndStmt (scanner : List String) : Except Failure (Statement Exp × List String) :=
  .ok (.EndStmt, scanner)

/-- What the claim about forward jumps asks of the statement of line `L`: it is
not an `INPUT`, and the target of a `GOTO` or `IF` is a stored line number
greater than `L`. -/
def Statement.forwardFrom (stored : Int → Prop) (L : Int) : Statement Exp → Prop
  | .InputStmt _ => False
  | .GoToStmt goingToLineNumber => L < goingToLineNumber ∧ stored goingToLineNumber
  | .IfStmt _ _ _ goingToLineNumber => L < goingToLineNumber ∧ stored goingToLineNumber
  | _ => True

/-- Proof device: every key of the map is an element of the vector. -/
def KeysInVector {Stmt : Type} (p : Program Stmt) : Prop :=
  ∀ k, mapContainsKey p.storage k = true → k ∈ p.lineNumbers

/-- A reader for examples: it takes one token, as an identifier, where the
absent `readE` takes a whole expression. -/
def exampleReadE (scanner : List String) : Except Failure (Expression × List String) :=
  match scanner with
  | [] => .error .syntaxError
  | token :: rest => .ok (.identifier token, rest)

/-- The calls that build the example program `10 GOTO 30`, `20 PRINT 1`,
`30 END`. -/
def exampleForwardJump : List (Call (Statement Expression)) :=
  [.add 10 "10 GOTO 30", .setParsed 10 (some (.GoToStmt 30)),
   .add 20 "20 PRINT 1", .setParsed 20 (some (.PrintStmt (.constant 1))),
   .add 30 "30 END", .setParsed 30 (some .EndStmt)]

end Construction

section LibraryLemmas

variable {V : Type}

theorem mapGet_mapPut (m : List (Int × V)) (k k' : Int) (v : V) :
    mapGet (mapPut m k v) k' = if k' = k then some v else mapGet m k' := by
  induction m with
  | nil => simp [mapPut, mapGet]
  | cons e m ih =>
    obtain ⟨k0, v0⟩ := e
    by_cases h1 : k = k0
    · subst h1
      by_cases h : k' = k <;> simp [mapPut, mapGet, h]
    · by_cases h2 : k < k0
      · by_cases h : k' = k <;> simp [mapPut, mapGet, h, h1, h2]
      · by_cases h : k' = k
        · subst h
          simp [mapPut, mapGet, h1, h2, ih]
        · by_cases h3 : k' = k0
          · subst h3
            simp [mapPut, mapGet, h, h1, h2]
          · simp [mapPut, mapGet, h, h1, h2, h3, ih]

theorem mapGet_mapRemove (m : List (Int × V)) (k k' : Int) :
    mapGet (mapRemove m k) k' = if k' = k then none else mapGet m k' := by
  induction m with
  | nil => simp [mapRemove, mapGet]
  | cons e m ih =>
    obtain ⟨k0, v0⟩ := e
    by_cases h : k' = k
    · subst h
      simp only [if_true] at ih
      by_cases h1 : k' = k0
      · subst h1
        simp [mapRemove, ih]
      · simp [mapRemove, mapGet, h1, ih]
    · simp only [h, if_false] at ih
      by_cases h1 : k = k0
      · subst h1
        simp [mapRemove, mapGet, h, ih]
      · by_cases h3 : k' = k0
        · subst h3
          simp [mapRemove, mapGet, h1, h]
        · simp [mapRemove, mapGet, h, h1, h3, ih]

theorem vecGet_append_cons (pre suf : List Int) (x : Int) :
    vecGet (pre ++ x :: suf) (pre.length : Int) = .ok x := by
  have h : (0 : Int) ≤ (pre.length : Int) ∧
      (pre.length : Int) < ((pre ++ x :: suf).length : Int) := by
    constructor
    · exact Int.natCast_nonneg _
    · simp only [List.length_append, List.length_cons]
      omega
  have hg : (pre ++ x :: suf).get? pre.length = some x := by
    rw [List.get?_eq_getElem?, List.getElem?_append_right (le_refl _)]
    simp
  simp only [vecGet, h, and_self, if_true, Int.toNat_ofNat, hg]

theorem vecInsert_append (pre suf : List Int) (x : Int) :
    vecInsert (pre ++ suf) (pre.length : Int) x = .ok (pre ++ x :: suf) := by
  have h : (0 : Int) ≤ (pre.length : Int) ∧
      (pre.length : Int) ≤ ((pre ++ suf).length : Int) := by
    constructor
    · exact Int.natCast_nonneg _
    · simp only [List.length_append]
      omega
  simp [vecInsert, h]

end LibraryLemmas

section InsertLoop

theorem insertRev_mem (x y : Int) (r : List Int) :
    y ∈ insertRev x r ↔ y = x ∨ y ∈ r := by
  induction r with
  | nil => simp [insertRev]
  | cons z r ih =>
    by_cases h : x > z
    · simp [insertRev, h]
    · simp only [insertRev, h, if_false, List.mem_cons, ih]
      tauto

theorem insertRev_length (x : Int) (r : List Int) :
    (insertRev x r).length = r.length + 1 := by
  induction r with
  | nil => simp [insertRev]
  | cons z r ih =>
    by_cases h : x > z <;> simp [insertRev, h, ih]

theorem insertRev_ne_nil (x : Int) (r : List Int) : insertRev x r ≠ [] := by
  cases r with
  | nil => simp [insertRev]
  | cons z r =>
    by_cases h : x > z <;> simp [insertRev, h]

theorem insertRev_pairwise (x : Int) (r : List Int) (h : r.Pairwise (· ≥ ·)) :
    (insertRev x r).Pairwise (· ≥ ·) := by
  induction r with
  | nil => simp [insertRev]
  | cons z r ih =>
    rw [List.pairwise_cons] at h
    by_cases hx : x > z
    · simp only [insertRev, hx, if_true, List.pairwise_cons, List.mem_cons]
      refine ⟨?_, h.1, h.2⟩
      rintro a (rfl | ha)
      · exact le_of_lt hx
      · exact le_trans (h.1 a ha) (le_of_lt hx)
    · simp only [insertRev, hx, if_false, List.pairwise_cons]
      refine ⟨?_, ih h.2⟩
      intro a ha
      rcases (insertRev_mem x a r).1 ha with rfl | ha
      · exact not_lt.1 hx
      · exact h.1 a ha

theorem insertLoop_reverse (L : Int) (r : List Int) (hr : r ≠ []) (suf : List Int)
    (idx : Int) :
    ∃ idx', insertLoop L r.length (r.reverse ++ suf, idx)
      = .ok ((insertRev L r).reverse ++ suf, idx') := by
  induction r generalizing suf idx with
  | nil => exact absurd rfl hr
  | cons x r ih =>
    have hv : (x :: r).reverse ++ suf = r.reverse ++ x :: suf := by simp
    have hg : vecGet (r.reverse ++ x :: suf) (r.length : Int) = .ok x := by
      have := vecGet_append_cons r.reverse suf x
      simpa using this
    rw [hv, List.length_cons, insertLoop, hg]
    by_cases h : L > x
    · have hi : vecInsert (r.reverse ++ x :: suf) ((r.length : Int) + 1) L
          = .ok (r.reverse ++ x :: L :: suf) := by
        have := vecInsert_append (r.reverse ++ [x]) suf L
        simpa using this
      refine ⟨(r.length : Int), ?_⟩
      simp [h, hi, insertRev, bind, Except.bind]
    · by_cases h0 : r.length = 0
      · have hnil : r = [] := List.length_eq_zero.1 h0
        subst hnil
        refine ⟨0, ?_⟩
        have hi : vecInsert (x :: suf) 0 L = .ok (L :: x :: suf) := by
          have := vecInsert_append [] (x :: suf) L
          simpa using this
        simp [h, hi, insertLoop, insertRev, bind, Except.bind]
      · have hne : r ≠ [] := fun e => h0 (by simp [e])
        obtain ⟨idx', hih⟩ := ih hne (x :: suf) idx
        refine ⟨idx', ?_⟩
        simp [h, h0, hih, insertRev, bind, Except.bind]

end InsertLoop

section AddSourceLine

variable {Stmt : Type}

/-- The re-indexing loop run on the part `ks` of the vector that follows `pre`:
when every element of `ks` is a key it succeeds, keeps every record's text and
statement, and leaves in the record of each element of `ks` the position of its
last occurrence. -/
theorem reindexLoop_spec (ks : List Int) :
    ∀ (pre : List Int) (m : List (Int × SourceLine Stmt)),
      (∀ k ∈ ks, mapGet m k ≠ none) →
      ∃ m', reindexLoop (pre ++ ks) ks.length (pre.length : Int) m = .ok m' ∧
        (∀ k, (mapGet m' k).map (fun sl => (sl.lineString, sl.lineParsed))
            = (mapGet m k).map (fun sl => (sl.lineString, sl.lineParsed))) ∧
        (∀ k ∈ ks, ∃ sl, mapGet m' k = some sl ∧
            IsLastAt (pre ++ ks) k sl.lineNumbersIndex) ∧
        (∀ k, k ∉ ks → mapGet m' k = mapGet m k) := by
  induction ks with
  | nil =>
    intro pre m _
    exact ⟨m, by simp [reindexLoop], fun _ => rfl, by simp, fun _ _ => rfl⟩
  | cons k0 ks ih =>
    intro pre m hk
    have hg : vecGet (pre ++ k0 :: ks) (pre.length : Int) = .ok k0 :=
      vecGet_append_cons pre ks k0
    obtain ⟨sl0, hsl0⟩ : ∃ sl0, mapGet m k0 = some sl0 :=
      Option.ne_none_iff_exists'.1 (hk k0 (by simp))
    have hk1 : ∀ k ∈ ks, mapGet (mapPut m k0
        { sl0 with lineNumbersIndex := (pre.length : Int) }) k ≠ none := by
      intro k hkm
      rw [mapGet_mapPut]
      by_cases e : k = k0
      · simp [e]
      · simpa [e] using hk k (by simp [hkm])
    obtain ⟨m', hrun, htext, hlast, hkeep⟩ := ih (pre ++ [k0]) _ hk1
    have hl : (((pre ++ [k0]).length : Nat) : Int) = (pre.length : Int) + 1 := by simp
    have ha : (pre ++ [k0]) ++ ks = pre ++ k0 :: ks := by simp
    rw [hl, ha] at hrun
    rw [ha] at hlast
    refine ⟨m', ?_, ?_, ?_, ?_⟩
    · rw [List.length_cons, reindexLoop, hg]
      simp only [bind, Except.bind, hsl0]
      exact hrun
    · intro k
      rw [htext k, mapGet_mapPut]
      by_cases e : k = k0
      · subst e
        simp [hsl0]
      · simp [e]
    · intro k hkm
      by_cases hin : k ∈ ks
      · exact hlast k hin
      · have e : k = k0 := by
          rcases List.mem_cons.1 hkm with e | e
          · exact e
          · exact absurd e hin
        subst e
        refine ⟨{ sl0 with lineNumbersIndex := (pre.length : Int) }, ?_, pre, ks, rfl, hin, rfl⟩
        rw [hkeep k hin, mapGet_mapPut]
        simp
    · intro k hkm
      have hin : k ∉ ks := fun e => hkm (List.mem_cons_of_mem _ e)
      have hne : k ≠ k0 := fun e => hkm (by simp [e])
      rw [hkeep k hin, mapGet_mapPut]
      simp [hne]

theorem addSourceLine_spec (p : Program Stmt) (L : Int) (t : String)
    (h : ∀ k ∈ p.lineNumbers, mapGet p.storage k ≠ none) :
    ∃ p', addSourceLine p L t = .ok p' ∧
      p'.lineNumbers = (insertRev L p.lineNumbers.reverse).reverse ∧
      (∃ sl, mapGet p'.storage L = some sl ∧ sl.lineString = t ∧ sl.lineParsed = none) ∧
      (∀ k, k ≠ L → (mapGet p'.storage k).map (fun sl => (sl.lineString, sl.lineParsed))
          = (mapGet p.storage k).map (fun sl => (sl.lineString, sl.lineParsed))) ∧
      (∀ k ∈ p'.lineNumbers, ∃ sl, mapGet p'.storage k = some sl ∧
          IsLastAt p'.lineNumbers k sl.lineNumbersIndex) := by
  obtain ⟨idx', hstep⟩ : ∃ idx', insertLineNumber p.lineNumbers L
      = .ok ((insertRev L p.lineNumbers.reverse).reverse, idx') := by
    by_cases he : p.lineNumbers = []
    · exact ⟨0, by simp [insertLineNumber, he, insertRev]⟩
    · have hr : p.lineNumbers.reverse ≠ [] := by simpa using he
      obtain ⟨idx', hl⟩ := insertLoop_reverse L p.lineNumbers.reverse hr [] 0
      refine ⟨idx', ?_⟩
      simpa [insertLineNumber, he] using hl
  have hk : ∀ k ∈ (insertRev L p.lineNumbers.reverse).reverse,
      mapGet (mapPut p.storage L
        ({ lineString := t, lineNumbersIndex := idx', lineParsed := none } : SourceLine Stmt)) k
        ≠ none := by
    intro k hkm
    rw [mapGet_mapPut]
    by_cases e : k = L
    · simp [e]
    · have hkm' : k ∈ p.lineNumbers := by
        rcases (insertRev_mem L k _).1 (List.mem_reverse.1 hkm) with e' | e'
        · exact absurd e' e
        · exact List.mem_reverse.1 e'
      simpa [e] using h k hkm'
  obtain ⟨m', hrun, htext, hlast, _⟩ := reindexLoop_spec _ [] _ hk
  simp only [List.nil_append, List.length_nil, Nat.cast_zero] at hrun hlast
  refine ⟨{ lineNumbers := (insertRev L p.lineNumbers.reverse).reverse, storage := m' },
    ?_, rfl, ?_, ?_, hlast⟩
  · unfold addSourceLine
    rw [hstep]
    simp only [bind, Except.bind]
    rw [hrun]
  · have ht := htext L
    rw [mapGet_mapPut] at ht
    simp only [if_true, Option.map_some'] at ht
    cases hm : mapGet m' L with
    | none => simp [hm] at ht
    | some sl =>
      simp only [hm, Option.map_some', Option.some.injEq, Prod.mk.injEq] at ht
      exact ⟨sl, rfl, ht.1, ht.2⟩
  · intro k hne
    show (mapGet m' k).map _ = _
    rw [htext k, mapGet_mapPut]
    simp [hne]

end AddSourceLine

section Traversal

variable {Stmt : Type}

theorem indexed_empty : Indexed (Program.empty : Program Stmt) := by
  constructor
  · exact List.Pairwise.nil
  · intro k hk
    simp [Program.empty] at hk

theorem addSourceLine_indexed (p : Program Stmt) (L : Int) (t : String) (hI : Indexed p) :
    ∃ p', addSourceLine p L t = .ok p' ∧ Indexed p' ∧
      (∀ x, x ∈ p'.lineNumbers ↔ x = L ∨ x ∈ p.lineNumbers) ∧
      p'.lineNumbers.length = p.lineNumbers.length + 1 := by
  have hst : ∀ k ∈ p.lineNumbers, mapGet p.storage k ≠ none := by
    intro k hk
    obtain ⟨sl, hsl, _⟩ := hI.2 k hk
    simp [hsl]
  obtain ⟨p', hadd, hv, _, _, hlast⟩ := addSourceLine_spec p L t hst
  refine ⟨p', hadd, ⟨?_, hlast⟩, ?_, ?_⟩
  · rw [hv, List.pairwise_reverse]
    apply insertRev_pairwise
    rw [List.pairwise_reverse]
    exact hI.1
  · intro x
    rw [hv, List.mem_reverse, insertRev_mem, List.mem_reverse]
  · rw [hv, List.length_reverse, insertRev_length, List.length_reverse]

theorem getFirstLineNumber_eq (p : Program Stmt) :
    getFirstLineNumber p = p.lineNumbers.headD (-1) := by
  unfold getFirstLineNumber
  cases p.lineNumbers <;> rfl

theorem getNextLineNumber_indexed (p : Program Stmt) (c : Int) (A B : List Int)
    (sl : SourceLine Stmt) (hv : p.lineNumbers = A ++ c :: B)
    (hget : mapGet p.storage c = some sl) (hidx : sl.lineNumbersIndex = (A.length : Int)) :
    getNextLineNumber p c = .ok (B.headD (-1)) := by
  have hne : p.lineNumbers.isEmpty = false := by
    rw [hv]
    cases A <;> rfl
  unfold getNextLineNumber
  simp only [hne, hget, hidx, Bool.not_false, if_true]
  cases B with
  | nil =>
    have : ¬ ((A.length : Int) + 1 < ((p.lineNumbers.length : Nat) : Int) ∧
        p.lineNumbers.length ≠ 0) := by
      rw [hv]
      simp
    rw [if_neg this]
    rfl
  | cons b B' =>
    have hc : ((A.length : Int) + 1 < ((p.lineNumbers.length : Nat) : Int) ∧
        p.lineNumbers.length ≠ 0) := by
      rw [hv]
      simp only [List.length_append, List.length_cons]
      constructor <;> omega
    have hg : vecGet p.lineNumbers ((A.length : Int) + 1) = .ok b := by
      have := vecGet_append_cons (A ++ [c]) B' b
      rw [hv]
      simpa using this
    rw [if_pos hc, hg]
    rfl

theorem traverseLoop_indexed (p : Program Stmt) (hI : Indexed p)
    (hne : ∀ k ∈ p.lineNumbers, k ≠ -1) :
    ∀ (fuel : Nat) (pre s : List Int), p.lineNumbers = pre ++ s → s.length ≤ fuel →
      (∀ x ∈ pre, ∀ y ∈ s, x < y) →
      ∃ t, traverseLoop p fuel (s.headD (-1)) = .ok t ∧ t.Pairwise (· < ·) ∧
        ∀ x, x ∈ t ↔ x ∈ s := by
  intro fuel
  induction fuel with
  | zero =>
    intro pre s _ hlen _
    have hs : s = [] := List.length_eq_zero.1 (Nat.le_zero.1 hlen)
    subst hs
    exact ⟨[], by simp [traverseLoop, END_PROGRAM_LINE_NUMBER], List.Pairwise.nil, fun _ => Iff.rfl⟩
  | succ fuel ih =>
    intro pre s hv hlen hblock
    cases s with
    | nil =>
      exact ⟨[], by simp [traverseLoop, END_PROGRAM_LINE_NUMBER], List.Pairwise.nil,
        fun _ => Iff.rfl⟩
    | cons c rest =>
      have hcmem : c ∈ p.lineNumbers := by rw [hv]; simp
      have hc1 : c ≠ -1 := hne c hcmem
      obtain ⟨sl, hget, A, B, hAB, hcB, hidx⟩ := hI.2 c hcmem
      have hsorted := hI.1
      have hsortedAB := hI.1
      rw [hv] at hsorted
      rw [hAB] at hsortedAB
      rw [List.pairwise_append] at hsorted hsortedAB
      have hAle : ∀ x ∈ A, x ≤ c := fun x hx => hsortedAB.2.2 x hx c (by simp)
      have hBgt : ∀ y ∈ B, c < y := by
        intro y hy
        have h1 : c ≤ y := (List.pairwise_cons.1 hsortedAB.2.1).1 y hy
        have h2 : c ≠ y := fun e => hcB (e ▸ hy)
        exact lt_of_le_of_ne h1 h2
      have hrestge : ∀ y ∈ rest, c ≤ y := (List.pairwise_cons.1 hsorted.2.1).1
      have hcpre : c ∉ pre := fun hc => lt_irrefl c (hblock c hc c (by simp))
      have hlenAB : pre.length ≤ A.length := by
        by_contra hlt
        have hlt' : A.length < pre.length := Nat.lt_of_not_le hlt
        have e1 : (pre ++ c :: rest)[A.length]? = pre[A.length]? :=
          List.getElem?_append_left hlt'
        have e2 : (A ++ c :: B)[A.length]? = some c := by
          rw [List.getElem?_append_right (le_refl _)]
          simp
        rw [← hv, hAB, e2] at e1
        exact hcpre (List.getElem?_mem e1.symm)
      have hlenB : B.length ≤ fuel := by
        have h1 : (pre ++ c :: rest).length = (A ++ c :: B).length := by rw [← hv, hAB]
        simp only [List.length_append, List.length_cons] at h1 hlen
        omega
      have hnext := getNextLineNumber_indexed p c A B sl hAB hget hidx
      have hv' : p.lineNumbers = (A ++ [c]) ++ B := by rw [hAB]; simp
      have hblock' : ∀ x ∈ A ++ [c], ∀ y ∈ B, x < y := by
        intro x hx y hy
        have hxc : x ≤ c := by
          rcases List.mem_append.1 hx with h | h
          · exact hAle x h
          · simp at h
            exact le_of_eq h
        exact lt_of_le_of_lt hxc (hBgt y hy)
      obtain ⟨t', hrun, hpw, hmem⟩ := ih (A ++ [c]) B hv' hlenB hblock'
      refine ⟨c :: t', ?_, ?_, ?_⟩
      · simp only [List.headD_cons, traverseLoop, END_PROGRAM_LINE_NUMBER, hc1, if_false,
          hnext, bind, Except.bind, hrun]
      · rw [List.pairwise_cons]
        exact ⟨fun y hy => hBgt y ((hmem y).1 hy), hpw⟩
      · intro x
        rw [List.mem_cons, List.mem_cons, hmem]
        constructor
        · rintro (h | h)
          · exact Or.inl h
          · have hx : x ∈ pre ++ c :: rest := by rw [← hv, hAB]; simp [h]
            rcases List.mem_append.1 hx with h' | h'
            · exact absurd (hblock x h' c (by simp)) (not_lt.2 (le_of_lt (hBgt x h)))
            · exact List.mem_cons.1 h'
        · rintro (h | h)
          · exact Or.inl h
          · have hx : x ∈ A ++ c :: B := by rw [← hAB, hv]; simp [h]
            rcases List.mem_append.1 hx with h' | h'
            · exact Or.inl (le_antisymm (hAle x h') (hrestge x h))
            · exact List.mem_cons.1 h'

theorem traversal_indexed (p : Program Stmt) (hI : Indexed p)
    (hne : ∀ k ∈ p.lineNumbers, k ≠ -1) (fuel : Nat) (hfuel : p.lineNumbers.length ≤ fuel) :
    ∃ t, traversal p fuel = .ok t ∧ t.Pairwise (· < ·) ∧ ∀ x, x ∈ t ↔ x ∈ p.lineNumbers := by
  unfold traversal
  rw [getFirstLineNumber_eq]
  exact traverseLoop_indexed p hI hne fuel [] p.lineNumbers rfl hfuel (by simp)

theorem addLines_indexed (es : List (Int × String)) :
    ∀ (p : Program Stmt), Indexed p →
      ∃ p', addLines p es = .ok p' ∧ Indexed p' ∧
        (∀ x, x ∈ p'.lineNumbers ↔ x ∈ es.map Prod.fst ∨ x ∈ p.lineNumbers) ∧
        p'.lineNumbers.length = p.lineNumbers.length + es.length := by
  induction es with
  | nil =>
    intro p hI
    exact ⟨p, rfl, hI, by simp, rfl⟩
  | cons e es ih =>
    intro p hI
    obtain ⟨l, t⟩ := e
    obtain ⟨p1, hadd, hI1, hmem1, hlen1⟩ := addSourceLine_indexed p l t hI
    obtain ⟨p', hrun, hI', hmem', hlen'⟩ := ih p1 hI1
    refine ⟨p', ?_, hI', ?_, ?_⟩
    · simp only [addLines, hadd, bind, Except.bind]
      exact hrun
    · intro x
      rw [hmem', hmem1]
      simp only [List.map_cons, List.mem_cons]
      tauto
    · rw [hlen', hlen1, List.length_cons]
      omega

theorem pairwise_lt_unique (t t' : List Int) (h : t.Pairwise (· < ·))
    (h' : t'.Pairwise (· < ·)) (hmem : ∀ x, x ∈ t ↔ x ∈ t') : t = t' := by
  have hnd : t.Nodup := h.imp (fun hab => ne_of_lt hab)
  have hnd' : t'.Nodup := h'.imp (fun hab => ne_of_lt hab)
  have hperm : t.Perm t' := (List.perm_ext_iff_of_nodup hnd hnd').2 hmem
  exact List.eq_of_perm_of_sorted hperm h h'

end Traversal

section Removal

variable {Stmt : Type}

/-- The part of removal that works: in a state built by `addSourceLine` alone,
removing a line of the vector succeeds and the line is then not stored. -/
theorem removeSourceLine_of_indexed (p : Program Stmt) (hI : Indexed p) (L : Int)
    (hL : L ∈ p.lineNumbers) :
    ∃ q, removeSourceLine p L = .ok q ∧ mapContainsKey q.storage L = false ∧
      getParsedStatement q L = none := by
  obtain ⟨sl, hget, A, B, hAB, _, hidx⟩ := hI.2 L hL
  have hr : (0 : Int) ≤ (A.length : Int) ∧
      (A.length : Int) < ((p.lineNumbers.length : Nat) : Int) := by
    rw [hAB]
    simp only [List.length_append, List.length_cons]
    constructor <;> omega
  have hc : mapContainsKey (mapRemove p.storage L) L = false := by
    simp [mapContainsKey, mapGet_mapRemove]
  refine ⟨⟨p.lineNumbers.eraseIdx A.length, mapRemove p.storage L⟩, ?_, hc, ?_⟩
  · unfold removeSourceLine
    simp only [hget, hidx, vecRemove, hr, and_self, if_true, Int.toNat_ofNat, bind, Except.bind]
  · unfold getParsedStatement
    simp [hc]

end Removal

section Claims

variable {Stmt : Type}

/-- C1 (the code at the failing input): after lines 10, 20 and 30 are entered
and line 10 is removed, lines 20 and 30 are both still stored, yet
`getNextLineNumber 20` answers `-1` and the traversal yields line 20 alone:
the records of 20 and 30 still carry the positions they had before the
removal. -/
theorem traversal_omits_line_after_remove :
    ∃ p : Program Unit,
      runCalls Program.empty
        [.add 10 "10 REM", .add 20 "20 REM", .add 30 "30 REM", .remove 10] = .ok p ∧
      p.lineNumbers = [20, 30] ∧ storedKeys p = [20, 30] ∧
      getNextLineNumber p 20 = .ok (-1) ∧
      ∀ fuel, traversal p (fuel + 1) = .ok [20] := by
  refine ⟨⟨[20, 30], [(20, ⟨"20 REM", 1, none⟩), (30, ⟨"30 REM", 2, none⟩)]⟩,
    rfl, rfl, rfl, rfl, ?_⟩
  intro fuel
  cases fuel <;> rfl

/-- C2: entering lines with `addSourceLine` alone, in any order and with
repeats, succeeds, and the first/next traversal of the result returns the
entered line numbers in strictly ascending order, each once; two sequences that
enter the same set of line numbers give the same traversal.  Line numbers
differ from the sentinel `-1` (they are positive in the data model); the
traversal is given at least one unit of fuel per entered line. -/
theorem traversal_of_added_lines (Stmt : Type) (es es' : List (Int × String))
    (hne : ∀ e ∈ es, e.1 ≠ -1) (hne' : ∀ e ∈ es', e.1 ≠ -1)
    (hset : ∀ x, x ∈ es.map Prod.fst ↔ x ∈ es'.map Prod.fst) :
    ∃ (p p' : Program Stmt) (t : List Int),
      addLines Program.empty es = .ok p ∧ addLines Program.empty es' = .ok p' ∧
      (∀ fuel, es.length ≤ fuel → traversal p fuel = .ok t) ∧
      (∀ fuel, es'.length ≤ fuel → traversal p' fuel = .ok t) ∧
      t.Pairwise (· < ·) ∧ ∀ x, x ∈ t ↔ x ∈ es.map Prod.fst := by
  obtain ⟨p, hp, hI, hmem, hlen⟩ := addLines_indexed es (Program.empty : Program Stmt) indexed_empty
  obtain ⟨p', hp', hI', hmem', hlen'⟩ :=
    addLines_indexed es' (Program.empty : Program Stmt) indexed_empty
  have hm : ∀ x, x ∈ p.lineNumbers ↔ x ∈ es.map Prod.fst := by
    intro x
    rw [hmem x]
    simp [Program.empty]
  have hm' : ∀ x, x ∈ p'.lineNumbers ↔ x ∈ es'.map Prod.fst := by
    intro x
    rw [hmem' x]
    simp [Program.empty]
  have hl : p.lineNumbers.length = es.length := by
    rw [hlen]
    simp [Program.empty]
  have hl' : p'.lineNumbers.length = es'.length := by
    rw [hlen']
    simp [Program.empty]
  have hk : ∀ k ∈ p.lineNumbers, k ≠ -1 := by
    intro k hkm
    obtain ⟨e, he, rfl⟩ := List.mem_map.1 ((hm k).1 hkm)
    exact hne e he
  have hk' : ∀ k ∈ p'.lineNumbers, k ≠ -1 := by
    intro k hkm
    obtain ⟨e, he, rfl⟩ := List.mem_map.1 ((hm' k).1 hkm)
    exact hne' e he
  obtain ⟨t, ht, hpw, htm⟩ := traversal_indexed p hI hk p.lineNumbers.length (le_refl _)
  have hall : ∀ fuel, es.length ≤ fuel → traversal p fuel = .ok t := by
    intro fuel hf
    obtain ⟨t1, ht1, hpw1, htm1⟩ := traversal_indexed p hI hk fuel (hl ▸ hf)
    have : t1 = t := pairwise_lt_unique t1 t hpw1 hpw (fun x => (htm1 x).trans (htm x).symm)
    rw [ht1, this]
  have hall' : ∀ fuel, es'.length ≤ fuel → traversal p' fuel = .ok t := by
    intro fuel hf
    obtain ⟨t1, ht1, hpw1, htm1⟩ := traversal_indexed p' hI' hk' fuel (hl' ▸ hf)
    have : t1 = t := pairwise_lt_unique t1 t hpw1 hpw
      (fun x => (htm1 x).trans ((hm' x).trans ((hset x).symm.trans ((hm x).symm.trans (htm x).symm))))
    rw [ht1, this]
  exact ⟨p, p', t, hp, hp', hall, hall', hpw, fun x => (htm x).trans (hm x)⟩

/-- C2 at a concrete input: lines 20, 10 and 20 again against lines 10, 20. -/
theorem traversal_of_added_lines_witness :
    ∃ (p p' : Program Unit) (t : List Int),
      addLines Program.empty [(20, "20 REM"), (10, "10 REM"), (20, "20 END")] = .ok p ∧
      addLines Program.empty [(10, "10 REM"), (20, "20 END")] = .ok p' ∧
      (∀ fuel, 3 ≤ fuel → traversal p fuel = .ok t) ∧
      (∀ fuel, 2 ≤ fuel → traversal p' fuel = .ok t) ∧
      t.Pairwise (· < ·) ∧ ∀ x, x ∈ t ↔ x ∈ [20, 10, 20] :=
  traversal_of_added_lines Unit [(20, "20 REM"), (10, "10 REM"), (20, "20 END")]
    [(10, "10 REM"), (20, "20 END")] (by decide) (by decide)
    (by intro x; simp only [List.map_cons, List.map_nil, List.mem_cons]; tauto)

end Claims

section MoreClaims

variable {Stmt : Type}

theorem getSourceLine_eq_of_shown (p p' : Program Stmt) (k : Int)
    (h : (mapGet p'.storage k).map (fun sl => (sl.lineString, sl.lineParsed))
      = (mapGet p.storage k).map (fun sl => (sl.lineString, sl.lineParsed))) :
    getSourceLine p' k = getSourceLine p k ∧
      getParsedStatement p' k = getParsedStatement p k := by
  unfold getSourceLine getParsedStatement mapContainsKey
  cases h1 : mapGet p'.storage k <;> cases h2 : mapGet p.storage k <;>
    simp_all

/-- Re-entering works wherever every element of the vector is a stored key:
the call succeeds, the line then has the new text and no parsed statement, and
every other line number shows the text and statement it showed before. -/
theorem addSourceLine_replaces (p : Program Stmt) (L : Int) (t : String)
    (h : ∀ k ∈ p.lineNumbers, mapContainsKey p.storage k = true) :
    ∃ p', addSourceLine p L t = .ok p' ∧ getSourceLine p' L = .ok t ∧
      getParsedStatement p' L = none ∧
      ∀ K, K ≠ L → getSourceLine p' K = getSourceLine p K ∧
        getParsedStatement p' K = getParsedStatement p K := by
  have hst : ∀ k ∈ p.lineNumbers, mapGet p.storage k ≠ none := by
    intro k hk
    have := h k hk
    unfold mapContainsKey at this
    intro e
    simp [e] at this
  obtain ⟨p', hadd, _, ⟨sl, hsl, ht, hnone⟩, hother, _⟩ := addSourceLine_spec p L t hst
  refine ⟨p', hadd, ?_, ?_, ?_⟩
  · simp [getSourceLine, hsl, ht]
  · simp [getParsedStatement, mapContainsKey, hsl, hnone]
  · intro K hK
    exact getSourceLine_eq_of_shown p p' K (hother K hK)

/-- Without `removeSourceLine` no call fails and the vector never holds a
line number that is not a key. -/
theorem runCalls_without_remove (cs : List (Call Stmt)) :
    ∀ (p : Program Stmt), VectorStored p → (∀ c ∈ cs, c.isRemove = false) →
      ∃ p', runCalls p cs = .ok p' ∧ VectorStored p' := by
  induction cs with
  | nil =>
    intro p hp _
    exact ⟨p, rfl, hp⟩
  | cons c cs ih =>
    intro p hp hcs
    have hc : c.isRemove = false := hcs c (by simp)
    have hrest : ∀ c' ∈ cs, c'.isRemove = false := fun c' h' => hcs c' (by simp [h'])
    have hstep : ∃ p1, c.run p = .ok p1 ∧ VectorStored p1 := by
      cases c with
      | add l t =>
        have hst : ∀ k ∈ p.lineNumbers, mapGet p.storage k ≠ none := by
          intro k hk e
          have := hp k hk
          simp [mapContainsKey, e] at this
        obtain ⟨p1, hadd, _, _, _, hlast⟩ := addSourceLine_spec p l t hst
        refine ⟨p1, hadd, ?_⟩
        intro k hk
        obtain ⟨sl, hsl, _⟩ := hlast k hk
        simp [mapContainsKey, hsl]
      | setParsed l stmt =>
        by_cases hl : mapContainsKey p.storage l = true
        · cases hm : mapGet p.storage l with
          | none => simp [mapContainsKey, hm] at hl
          | some sl =>
            refine ⟨{ p with storage := mapPut p.storage l { sl with lineParsed := stmt } },
              by simp [Call.run, setParsedStatement, hl, hm], ?_⟩
            intro k hk
            have := hp k hk
            simp only [mapContainsKey, mapGet_mapPut] at this ⊢
            by_cases e : k = l
            · simp [e]
            · simpa [e] using this
        · exact ⟨p, by simp [Call.run, setParsedStatement, hl], hp⟩
      | remove l => simp [Call.isRemove] at hc
      | clearAll =>
        refine ⟨clear p, rfl, ?_⟩
        intro k hk
        simp [clear] at hk
    obtain ⟨p1, hrun1, hp1⟩ := hstep
    obtain ⟨p', hrun, hp'⟩ := ih p1 hp1 hrest
    refine ⟨p', ?_, hp'⟩
    simp only [runCalls, hrun1, bind, Except.bind]
    exact hrun

/-- In every state reached from the empty program without `removeSourceLine`,
entering any line number succeeds, gives the line the new text and no parsed
statement, and leaves what every other line number shows as it was. -/
theorem addSourceLine_replaces_without_remove (cs : List (Call Stmt))
    (hcs : ∀ c ∈ cs, c.isRemove = false) :
    ∃ p, runCalls Program.empty cs = .ok p ∧ ∀ (L : Int) (t : String),
      ∃ p', addSourceLine p L t = .ok p' ∧ getSourceLine p' L = .ok t ∧
        getParsedStatement p' L = none ∧
        ∀ K, K ≠ L → getSourceLine p' K = getSourceLine p K ∧
          getParsedStatement p' K = getParsedStatement p K := by
  have h0 : VectorStored (Program.empty : Program Stmt) := by
    intro k hk
    simp [Program.empty] at hk
  obtain ⟨p, hrun, hp⟩ := runCalls_without_remove cs Program.empty h0 hcs
  exact ⟨p, hrun, fun L t => addSourceLine_replaces p L t hp⟩

/-- C3 (the code at the failing input): lines 10, 20 and 30 are entered, all
distinct, and line 10 is removed.  Line 10 is gone and lines 20 and 30 keep
their text, but the traversal yields line 20 alone instead of 20 and 30. -/
theorem remove_first_line_cuts_traversal :
    ∃ p q : Program Unit,
      addLines Program.empty [(10, "10 REM"), (20, "20 REM"), (30, "30 REM")] = .ok p ∧
      removeSourceLine p 10 = .ok q ∧
      getParsedStatement q 10 = none ∧
      getSourceLine q 20 = .ok "20 REM" ∧ getSourceLine q 30 = .ok "30 REM" ∧
      ∀ fuel, traversal q (fuel + 1) = .ok [20] := by
  refine ⟨⟨[10, 20, 30],
      [(10, ⟨"10 REM", 0, none⟩), (20, ⟨"20 REM", 1, none⟩), (30, ⟨"30 REM", 2, none⟩)]⟩,
    ⟨[20, 30], [(20, ⟨"20 REM", 1, none⟩), (30, ⟨"30 REM", 2, none⟩)]⟩,
    rfl, rfl, rfl, rfl, rfl, ?_⟩
  intro fuel
  cases fuel <;> rfl

/-- C4 (the code at two failing inputs): entering line 10 twice leaves the
vector `[10, 10]`, which is not strictly ascending; entering 10, 20, 30 and
removing 10 and then 20 leaves the vector `[20]` beside the single key 30.
Neither state is consistent. -/
theorem reachable_state_not_consistent :
    (∃ p : Program Unit,
      runCalls Program.empty [.add 10 "10 REM", .add 10 "10 END"] = .ok p ∧
      p.lineNumbers = [10, 10] ∧ storedKeys p = [10] ∧ ¬ Consistent p) ∧
    (∃ q : Program Unit,
      runCalls Program.empty
        [.add 10 "10 REM", .add 20 "20 REM", .add 30 "30 REM", .remove 10, .remove 20]
        = .ok q ∧
      q.lineNumbers = [20] ∧ storedKeys q = [30] ∧ ¬ Consistent q) := by
  constructor
  · refine ⟨⟨[10, 10], [(10, ⟨"10 END", 1, none⟩)]⟩, rfl, rfl, rfl, ?_⟩
    rintro ⟨h, _⟩
    simp at h
  · refine ⟨⟨[20], [(30, ⟨"30 REM", 2, none⟩)]⟩, rfl, rfl, rfl, ?_⟩
    rintro ⟨_, h⟩
    have := (h 20).1 (by simp)
    simp [storedKeys] at this

/-- C5 (the code at the failing input): after lines 10, 20, 30 and 40 are
entered and lines 10 and 20 removed, line 40 is in the vector and stored with
its text, and entering line 40 again fails in the re-indexing loop, which
looks up the vector's element 20 that is no longer a key. -/
theorem reenter_stored_line_fails :
    ∃ p : Program Unit,
      runCalls Program.empty
        [.add 10 "10 REM", .add 20 "20 REM", .add 30 "30 REM", .add 40 "40 REM",
          .remove 10, .remove 20] = .ok p ∧
      p.lineNumbers = [20, 40] ∧ storedKeys p = [30, 40] ∧
      getSourceLine p 40 = .ok "40 REM" ∧
      addSourceLine p 40 "40 END" = .error .nullDereference :=
  ⟨⟨[20, 40], [(30, ⟨"30 REM", 2, none⟩), (40, ⟨"40 REM", 3, none⟩)]⟩,
    rfl, rfl, rfl, rfl, rfl⟩

/-- C6 (the code on every absent line): `removeSourceLine` of a line number
that is not stored does not return normally; it reads the index through the
null pointer that the lookup gives. -/
theorem removeSourceLine_absent_fails (p : Program Stmt) (L : Int)
    (h : mapContainsKey p.storage L = false) :
    removeSourceLine p L = .error .nullDereference := by
  unfold mapContainsKey at h
  unfold removeSourceLine
  cases hm : mapGet p.storage L with
  | none => rfl
  | some sl => simp [hm] at h

/-- C6 at a concrete input: removing line 20 from a program holding line 10. -/
theorem removeSourceLine_absent_fails_witness :
    removeSourceLine (⟨[10], [(10, ⟨"10 REM", 0, none⟩)]⟩ : Program Unit) 20
      = .error .nullDereference :=
  removeSourceLine_absent_fails _ 20 rfl

/-- C7 (the code at the failing input): entering line 10 twice and removing it
are three successful calls; they leave the vector `[10]` and no key, and
entering line 20 then fails in the re-indexing loop. -/
theorem addSourceLine_fails_after_successful_calls :
    ∃ p : Program Unit,
      runCalls Program.empty [.add 10 "10 REM", .add 10 "10 END", .remove 10] = .ok p ∧
      p.lineNumbers = [10] ∧ storedKeys p = [] ∧
      addSourceLine p 20 "20 END" = .error .nullDereference :=
  ⟨⟨[10], []⟩, rfl, rfl, rfl, rfl⟩

/-- C8 (the code on every absent line): `setParsedStatement` for a line number
that is not stored returns normally and leaves the program as it was. -/
theorem setParsedStatement_absent_returns (p : Program Stmt) (L : Int) (stmt : Option Stmt)
    (h : mapContainsKey p.storage L = false) :
    setParsedStatement p L stmt = .ok p := by
  unfold setParsedStatement
  simp [h]

/-- C8 at a concrete input: a statement for line 10 of the empty program. -/
theorem setParsedStatement_absent_returns_witness :
    setParsedStatement (Program.empty : Program Unit) 10 (some ()) = .ok Program.empty :=
  setParsedStatement_absent_returns _ 10 (some ()) rfl

/-- C9 (the code on every absent line): `getSourceLine` of a line number that
is not stored does not return the empty string; it reads the text through the
null pointer that the lookup gives. -/
theorem getSourceLine_absent_fails (p : Program Stmt) (L : Int)
    (h : mapContainsKey p.storage L = false) :
    getSourceLine p L = .error .nullDereference := by
  unfold mapContainsKey at h
  unfold getSourceLine
  cases hm : mapGet p.storage L with
  | none => rfl
  | some sl => simp [hm] at h

/-- C9 at a concrete input: the text of line 10 of the empty program. -/
theorem getSourceLine_absent_fails_witness :
    getSourceLine (Program.empty : Program Unit) 10 = .error .nullDereference :=
  getSourceLine_absent_fails _ 10 rfl

/-- C10: whatever the program, `clear` leaves the empty store: the first line
number is `-1`, the traversal is empty, no line number has a parsed statement,
there is no key, and clearing again gives the same store. -/
theorem clear_empties_and_is_idempotent (p : Program Stmt) :
    clear p = Program.empty ∧
    getFirstLineNumber (clear p) = -1 ∧
    (∀ fuel, traversal (clear p) fuel = .ok []) ∧
    (∀ L, getParsedStatement (clear p) L = none) ∧
    storedKeys (clear p) = [] ∧
    clear (clear p) = clear p := by
  refine ⟨rfl, rfl, ?_, fun _ => rfl, rfl, rfl⟩
  intro fuel
  cases fuel <;> rfl

end MoreClaims

section StatementLemmas

variable {Exp : Type}

theorem tableGet_tablePut (t : List (String × Int)) (var var' : String) (value : Int) :
    tableGet (tablePut t var value) var' = if var' = var then some value else tableGet t var' := by
  induction t with
  | nil => simp [tablePut, tableGet]
  | cons e t ih =>
    obtain ⟨k, v⟩ := e
    by_cases h1 : var = k
    · subst h1
      by_cases h : var' = var <;> simp [tablePut, tableGet, h]
    · by_cases h : var' = var
      · subst h
        simp [tablePut, tableGet, h1, ih]
      · by_cases h3 : var' = k
        · subst h3
          simp [tablePut, tableGet, h1, h]
        · simp [tablePut, tableGet, h1, h, h3, ih]

theorem getValue_setValue (state : EvalState) (var : String) (value : Int) :
    (state.setValue var value).getValue var = value := by
  simp [EvalState.setValue, EvalState.getValue, tableGet_tablePut]

theorem isDefined_setValue (state : EvalState) (var : String) (value : Int) :
    (state.setValue var value).isDefined var = true := by
  simp [EvalState.setValue, EvalState.isDefined, tableGet_tablePut]

theorem getValue_setValue_other (state : EvalState) (var other : String) (value : Int)
    (h : other ≠ var) :
    (state.setValue var value).getValue other = state.getValue other ∧
      (state.setValue var value).isDefined other = state.isDefined other := by
  simp [EvalState.setValue, EvalState.getValue, EvalState.isDefined, tableGet_tablePut, h]

theorem runLoop_end (eval : Exp → EvalState → Except Failure Int)
    (p : Program (Statement Exp)) (fuel : Nat) (m : Machine) :
    runLoop eval p fuel (-1) m = ⟨m, [], none⟩ := by
  cases fuel <;> simp [runLoop, END_PROGRAM_LINE_NUMBER]

/-- One turn of the loop when the statement raised no error and moved the
register: the run goes on at the line the register names. -/
theorem runLoop_jump (eval : Exp → EvalState → Except Failure Int)
    (p : Program (Statement Exp)) (fuel : Nat) (L : Int) (m m' : Machine) (s : Statement Exp)
    (hL : L ≠ -1) (hs : getParsedStatement p L = some s)
    (he : s.execute eval m = ⟨m', none⟩) (hj : L ≠ m'.state.currentLine) :
    runLoop eval p (fuel + 1) L m =
      (runLoop eval p fuel m'.state.currentLine m').after L := by
  simp [runLoop, END_PROGRAM_LINE_NUMBER, hL, hs, he, EvalState.getCurrentLine, hj]

/-- One turn of the loop when the statement raised no error and left the
register at its own line: the run goes on at the next line of the store. -/
theorem runLoop_fall (eval : Exp → EvalState → Except Failure Int)
    (p : Program (Statement Exp)) (fuel : Nat) (L next : Int) (m m' : Machine)
    (s : Statement Exp) (hL : L ≠ -1) (hs : getParsedStatement p L = some s)
    (he : s.execute eval m = ⟨m', none⟩) (hj : m'.state.currentLine = L)
    (hn : getNextLineNumber p L = .ok next) :
    runLoop eval p (fuel + 1) L m =
      (runLoop eval p fuel next (m'.setCurrentLine next)).after L := by
  simp [runLoop, END_PROGRAM_LINE_NUMBER, hL, hs, he, EvalState.getCurrentLine, hj, hn]

/-- One turn of the loop when the statement raised an error. -/
theorem runLoop_raise (eval : Exp → EvalState → Except Failure Int)
    (p : Program (Statement Exp)) (fuel : Nat) (L : Int) (m m' : Machine) (s : Statement Exp)
    (f : Failure) (hL : L ≠ -1) (hs : getParsedStatement p L = some s)
    (he : s.execute eval m = ⟨m', some f⟩) :
    runLoop eval p (fuel + 1) L m = ⟨m', [L], some f⟩ := by
  simp [runLoop, END_PROGRAM_LINE_NUMBER, hL, hs, he]

theorem getParsedStatement_absent (p : Program (Statement Exp)) (L : Int)
    (h : mapContainsKey p.storage L = false) : getParsedStatement p L = none := by
  simp [getParsedStatement, h]

theorem execute_jumpsTo (eval : Exp → EvalState → Except Failure Int) (s : Statement Exp)
    (m : Machine) (T : Int) (h : s.jumpsTo eval m T) :
    s.execute eval m = ⟨m.setCurrentLine T, none⟩ := by
  cases s with
  | GoToStmt n =>
    simp only [Statement.jumpsTo] at h
    simp [Statement.execute, h]
  | IfStmt lhs rhs comparison n =>
    obtain ⟨hn, l, r, hl, hr, hc⟩ := h
    simp [Statement.execute, hl, hr, hc, hn]
  | RemStmt => exact absurd h (by simp [Statement.jumpsTo])
  | LetStmt _ _ => exact absurd h (by simp [Statement.jumpsTo])
  | PrintStmt _ => exact absurd h (by simp [Statement.jumpsTo])
  | InputStmt _ => exact absurd h (by simp [Statement.jumpsTo])
  | EndStmt => exact absurd h (by simp [Statement.jumpsTo])

/-- A jump to another line: the statement executed next is the one of the
target line. -/
theorem runLoop_jumpsTo (eval : Exp → EvalState → Except Failure Int)
    (p : Program (Statement Exp)) (fuel : Nat) (L T : Int) (m : Machine) (s : Statement Exp)
    (hL : L ≠ -1) (hs : getParsedStatement p L = some s) (hj : s.jumpsTo eval m T)
    (hTL : T ≠ L) :
    runLoop eval p (fuel + 1) L m = (runLoop eval p fuel T (m.setCurrentLine T)).after L := by
  have he := execute_jumpsTo eval s m T hj
  have := runLoop_jump eval p fuel L m (m.setCurrentLine T) s hL hs he
    (by simpa [Machine.setCurrentLine, EvalState.setCurrentLine] using hTL.symm)
  simpa [Machine.setCurrentLine, EvalState.setCurrentLine] using this

end StatementLemmas

section EnteringLines

variable {Stmt : Type}

theorem setParsedStatement_stored (p : Program Stmt) (L : Int) (stmt : Option Stmt)
    (sl : SourceLine Stmt) (h : mapGet p.storage L = some sl) :
    setParsedStatement p L stmt =
      .ok { p with storage := mapPut p.storage L { sl with lineParsed := stmt } } := by
  simp [setParsedStatement, mapContainsKey, h]

/-- Where every element of the vector is a key, a line whose statement part
does not parse is stored with its text and without a statement, the error is
handed on, and what every other line number shows is as before. -/
theorem lineNumberCommand_parse_failure (p : Program Stmt) (L : Int) (line : String)
    (f : Failure) (h : VectorStored p) :
    ∃ p', lineNumberCommand p L line (.error f) = .ok (p', some f) ∧
      getSourceLine p' L = .ok line ∧ getParsedStatement p' L = none ∧
      ∀ K, K ≠ L → getSourceLine p' K = getSourceLine p K ∧
        getParsedStatement p' K = getParsedStatement p K := by
  obtain ⟨p', hadd, h1, h2, h3⟩ := addSourceLine_replaces p L line h
  exact ⟨p', by simp [lineNumberCommand, hadd], h1, h2, h3⟩

/-- Entering a line whose text parses, in a state built by entering lines. -/
theorem lineNumberCommand_indexed (p : Program Stmt) (L : Int) (line : String) (stmt : Stmt)
    (hI : Indexed p) :
    ∃ p', lineNumberCommand p L line (.ok stmt) = .ok (p', none) ∧ Indexed p' ∧
      (∀ x, x ∈ p'.lineNumbers ↔ x = L ∨ x ∈ p.lineNumbers) ∧
      p'.lineNumbers.length = p.lineNumbers.length + 1 ∧
      getParsedStatement p' L = some stmt ∧
      ∀ K, K ≠ L → getParsedStatement p' K = getParsedStatement p K := by
  have hst : ∀ k ∈ p.lineNumbers, mapGet p.storage k ≠ none := by
    intro k hk
    obtain ⟨sl, hsl, _⟩ := hI.2 k hk
    simp [hsl]
  obtain ⟨p1, hadd, _, ⟨sl, hsl, _, _⟩, hother, _⟩ := addSourceLine_spec p L line hst
  obtain ⟨p1', hadd', hI1, hmem, hlen⟩ := addSourceLine_indexed p L line hI
  have hp : p1' = p1 := by
    rw [hadd] at hadd'
    exact (Except.ok.inj hadd').symm
  subst hp
  refine ⟨{ p1' with storage := mapPut p1'.storage L { sl with lineParsed := some stmt } },
    ?_, ⟨hI1.1, ?_⟩, hmem, hlen, ?_, ?_⟩
  · simp [lineNumberCommand, hadd, setParsedStatement_stored p1' L (some stmt) sl hsl]
  · intro k hk
    obtain ⟨sl', hsl', hlast⟩ := hI1.2 k hk
    by_cases e : k = L
    · subst e
      rw [hsl] at hsl'
      have e' : sl' = sl := (Option.some.inj hsl').symm
      subst e'
      exact ⟨{ sl' with lineParsed := some stmt }, by simp [mapGet_mapPut], hlast⟩
    · exact ⟨sl', by simp [mapGet_mapPut, e, hsl'], hlast⟩
  · simp [getParsedStatement, mapContainsKey, mapGet_mapPut]
  · intro K hK
    have h1 : getParsedStatement
        ({ p1' with storage := mapPut p1'.storage L { sl with lineParsed := some stmt } } :
          Program Stmt) K = getParsedStatement p1' K := by
      simp [getParsedStatement, mapContainsKey, mapGet_mapPut, hK]
    rw [h1]
    exact (getSourceLine_eq_of_shown p p1' K (hother K hK)).2

/-- Entering lines whose texts parse, from a state built by entering lines:
every call succeeds, and every line of the vector holds a statement that is
among those entered or was there before. -/
theorem enterLines_indexed (Q : Stmt → Prop) (es : List (Int × String × Stmt)) :
    ∀ (p : Program Stmt), Indexed p →
      (∀ L ∈ p.lineNumbers, ∃ s, getParsedStatement p L = some s ∧ Q s) →
      (∀ e ∈ es, Q e.2.2) →
      ∃ p', enterLines p es = .ok p' ∧ Indexed p' ∧
        (∀ x, x ∈ p'.lineNumbers ↔ x ∈ es.map (fun e => e.1) ∨ x ∈ p.lineNumbers) ∧
        p'.lineNumbers.length = p.lineNumbers.length + es.length ∧
        ∀ L ∈ p'.lineNumbers, ∃ s, getParsedStatement p' L = some s ∧ Q s := by
  induction es with
  | nil =>
    intro p hI hQ _
    exact ⟨p, rfl, hI, by simp, rfl, hQ⟩
  | cons e es ih =>
    intro p hI hQ hes
    obtain ⟨l, t, stmt⟩ := e
    obtain ⟨p1, hcmd, hI1, hmem1, hlen1, hget, hother⟩ := lineNumberCommand_indexed p l t stmt hI
    have hQ1 : ∀ L ∈ p1.lineNumbers, ∃ s, getParsedStatement p1 L = some s ∧ Q s := by
      intro L hL
      by_cases e : L = l
      · subst e
        exact ⟨stmt, hget, hes (L, t, stmt) (by simp)⟩
      · rw [hother L e]
        rcases (hmem1 L).1 hL with h | h
        · exact absurd h e
        · exact hQ L h
    obtain ⟨p', hrun, hI', hmem', hlen', hQ'⟩ :=
      ih p1 hI1 hQ1 (fun e he => hes e (by simp [he]))
    refine ⟨p', ?_, hI', ?_, ?_, hQ'⟩
    · simp only [enterLines, hcmd]
      exact hrun
    · intro x
      rw [hmem', hmem1]
      simp only [List.map_cons, List.mem_cons]
      tauto
    · rw [hlen', hlen1, List.length_cons]
      omega

end EnteringLines

section SequentialRuns

variable {Exp : Type}

theorem execute_sequential_currentLine (eval : Exp → EvalState → Except Failure Int)
    (s : Statement Exp) (m : Machine) (h : s.isSequential = true) :
    (s.execute eval m).machine.state.currentLine = m.state.currentLine := by
  cases s with
  | RemStmt => rfl
  | LetStmt name exp =>
    simp only [Statement.execute]
    cases eval exp m.state <;> rfl
  | PrintStmt exp =>
    simp only [Statement.execute]
    cases eval exp m.state <;> rfl
  | InputStmt _ => simp [Statement.isSequential] at h
  | GoToStmt _ => simp [Statement.isSequential] at h
  | IfStmt _ _ _ _ => simp [Statement.isSequential] at h
  | EndStmt => simp [Statement.isSequential] at h

theorem execute_sequential_ok (eval : Exp → EvalState → Except Failure Int)
    (s : Statement Exp) (m : Machine) (h : s.isSequential = true)
    (hev : ∀ x ∈ s.exps, ∀ st, ∃ v, eval x st = .ok v) :
    (s.execute eval m).failure = none := by
  cases s with
  | RemStmt => rfl
  | LetStmt name exp =>
    obtain ⟨v, hv⟩ := hev exp (by simp [Statement.exps]) m.state
    simp [Statement.execute, hv]
  | PrintStmt exp =>
    obtain ⟨v, hv⟩ := hev exp (by simp [Statement.exps]) m.state
    simp [Statement.execute, hv]
  | InputStmt _ => simp [Statement.isSequential] at h
  | GoToStmt _ => simp [Statement.isSequential] at h
  | IfStmt _ _ _ _ => simp [Statement.isSequential] at h
  | EndStmt => simp [Statement.isSequential] at h

/-- Over statements that do not jump, the driver visits the lines that the
first/next traversal visits, in the same order. -/
theorem runLoop_follows_traversal (eval : Exp → EvalState → Except Failure Int)
    (p : Program (Statement Exp)) :
    ∀ (fuel : Nat) (cur : Int) (t : List Int) (m : Machine),
      traverseLoop p fuel cur = .ok t →
      (∀ L ∈ t, ∃ s, getParsedStatement p L = some s ∧ s.isSequential = true) →
      runLoop eval p fuel cur (m.setCurrentLine cur) = runInOrder eval p t m := by
  intro fuel
  induction fuel with
  | zero =>
    intro cur t m ht _
    by_cases hc : cur = -1
    · subst hc
      simp only [traverseLoop, END_PROGRAM_LINE_NUMBER, if_true] at ht
      have : t = [] := (Except.ok.inj ht).symm
      subst this
      rw [runLoop_end]
      rfl
    · simp [traverseLoop, END_PROGRAM_LINE_NUMBER, hc] at ht
  | succ fuel ih =>
    intro cur t m ht hs
    by_cases hc : cur = -1
    · subst hc
      simp only [traverseLoop, END_PROGRAM_LINE_NUMBER, if_true] at ht
      have : t = [] := (Except.ok.inj ht).symm
      subst this
      rw [runLoop_end]
      rfl
    · simp only [traverseLoop, END_PROGRAM_LINE_NUMBER, hc, if_false] at ht
      cases hn : getNextLineNumber p cur with
      | error f => simp [hn, bind, Except.bind] at ht
      | ok next =>
        cases hr : traverseLoop p fuel next with
        | error f => simp [hn, hr, bind, Except.bind] at ht
        | ok rest =>
          simp only [hn, hr, bind, Except.bind] at ht
          have : t = cur :: rest := (Except.ok.inj ht).symm
          subst this
          obtain ⟨s, hget, hseq⟩ := hs cur (by simp)
          have hline := execute_sequential_currentLine eval s (m.setCurrentLine cur) hseq
          have hline' : (s.execute eval (m.setCurrentLine cur)).machine.state.currentLine = cur := by
            rw [hline]
            rfl
          cases hf : (s.execute eval (m.setCurrentLine cur)).failure with
          | some f =>
            have he : s.execute eval (m.setCurrentLine cur)
                = ⟨(s.execute eval (m.setCurrentLine cur)).machine, some f⟩ := by
              rw [← hf]
            rw [runLoop_raise eval p fuel cur _ _ s f hc hget he]
            simp [runInOrder, hget, hf]
          | none =>
            have he : s.execute eval (m.setCurrentLine cur)
                = ⟨(s.execute eval (m.setCurrentLine cur)).machine, none⟩ := by
              rw [← hf]
            rw [runLoop_fall eval p fuel cur next _ _ s hc hget he hline' hn]
            rw [ih next rest _ hr (fun L hL => hs L (List.mem_cons_of_mem _ hL))]
            simp [runInOrder, hget, hf]

theorem runInOrder_total (eval : Exp → EvalState → Except Failure Int)
    (p : Program (Statement Exp)) (t : List Int) :
    ∀ (m : Machine),
      (∀ L ∈ t, ∃ s, getParsedStatement p L = some s ∧ s.isSequential = true ∧
        ∀ x ∈ s.exps, ∀ st, ∃ v, eval x st = .ok v) →
      (runInOrder eval p t m).failure = none ∧ (runInOrder eval p t m).executed = t := by
  induction t with
  | nil =>
    intro m _
    exact ⟨rfl, rfl⟩
  | cons l rest ih =>
    intro m h
    obtain ⟨s, hget, hseq, hev⟩ := h l (by simp)
    have hf := execute_sequential_ok eval s (m.setCurrentLine l) hseq hev
    obtain ⟨h1, h2⟩ := ih (s.execute eval (m.setCurrentLine l)).machine
      (fun L hL => h L (List.mem_cons_of_mem _ hL))
    simp [runInOrder, hget, hf, RunResult.after, h1, h2]

end SequentialRuns

section RunClaims

variable {Exp : Type}

/-- C11: lines whose statements are comments, assignments and prints, entered
in any order and with repeats, give a program whose run, with one unit of fuel
for each entered line, is the execution of the stored statements one after the
other in strictly ascending order of the stored line numbers, from the lowest
one; when the expressions of the entered statements evaluate without failure,
the run executes every stored line once, in that order, and ends without a
failure.  Line numbers differ from the sentinel `-1`. -/
theorem run_sequential_program (eval : Exp → EvalState → Except Failure Int)
    (es : List (Int × String × Statement Exp))
    (hne : ∀ e ∈ es, e.1 ≠ -1) (hseq : ∀ e ∈ es, e.2.2.isSequential = true) :
    ∃ (p : Program (Statement Exp)) (t : List Int),
      enterLines Program.empty es = .ok p ∧
      t.Pairwise (· < ·) ∧ (∀ x, x ∈ t ↔ x ∈ es.map (fun e => e.1)) ∧
      (∀ L ∈ t, ∃ s, getParsedStatement p L = some s ∧ s.isSequential = true) ∧
      ∀ (m : Machine) (fuel : Nat), es.length ≤ fuel →
        runCommand eval p m fuel = runInOrder eval p t m ∧
        ((∀ e ∈ es, ∀ x ∈ e.2.2.exps, ∀ st, ∃ v, eval x st = .ok v) →
          (runCommand eval p m fuel).failure = none ∧
          (runCommand eval p m fuel).executed = t) := by
  obtain ⟨p, hp, hI, hmem, hlen, hQ⟩ :=
    enterLines_indexed (fun s => ∃ e ∈ es, e.2.2 = s) es
      (Program.empty : Program (Statement Exp)) indexed_empty
      (by intro L hL; simp [Program.empty] at hL) (fun e he => ⟨e, he, rfl⟩)
  have hm : ∀ x, x ∈ p.lineNumbers ↔ x ∈ es.map (fun e => e.1) := by
    intro x
    rw [hmem x]
    simp [Program.empty]
  have hl : p.lineNumbers.length = es.length := by
    rw [hlen]
    simp [Program.empty]
  have hk : ∀ k ∈ p.lineNumbers, k ≠ -1 := by
    intro k hkm
    obtain ⟨e, he, rfl⟩ := List.mem_map.1 ((hm k).1 hkm)
    exact hne e he
  obtain ⟨t, _, hpw, htm⟩ := traversal_indexed p hI hk p.lineNumbers.length (le_refl _)
  have hst : ∀ L ∈ t, ∃ s, getParsedStatement p L = some s ∧ s.isSequential = true := by
    intro L hL
    obtain ⟨s, hs, e, he, hes⟩ := hQ L ((htm L).1 hL)
    exact ⟨s, hs, hes ▸ hseq e he⟩
  refine ⟨p, t, hp, hpw, fun x => (htm x).trans (hm x), hst, ?_⟩
  intro m fuel hf
  obtain ⟨t1, ht1, hpw1, htm1⟩ := traversal_indexed p hI hk fuel (hl ▸ hf)
  have ht : t1 = t := pairwise_lt_unique t1 t hpw1 hpw (fun x => (htm1 x).trans (htm x).symm)
  subst ht
  have hrun : runCommand eval p m fuel = runInOrder eval p t1 m := by
    unfold runCommand
    exact runLoop_follows_traversal eval p fuel (getFirstLineNumber p) t1 m ht1 hst
  refine ⟨hrun, ?_⟩
  intro hev
  rw [hrun]
  apply runInOrder_total
  intro L hL
  obtain ⟨s, hs, e, he, hes⟩ := hQ L ((htm L).1 hL)
  exact ⟨s, hs, hes ▸ hseq e he, hes ▸ hev e he⟩

/-- C11 at a concrete input: `20 PRINT 7`, `10 REM`, and line 20 entered again
as `20 LET X = 1`: the run executes line 10 and then line 20 and halts. -/
theorem run_sequential_program_witness :
    ∃ (p : Program (Statement Expression)),
      enterLines Program.empty
        [(20, "20 PRINT 7", .PrintStmt (.constant 7)), (10, "10 REM", .RemStmt),
         (20, "20 LET X = 1", .LetStmt "X" (.constant 1))] = .ok p ∧
      ∀ (m : Machine) (fuel : Nat), 3 ≤ fuel →
        runCommand Expression.eval p m fuel = runInOrder Expression.eval p [10, 20] m ∧
        (runCommand Expression.eval p m fuel).failure = none ∧
        (runCommand Expression.eval p m fuel).executed = [10, 20] := by
  obtain ⟨p, t, hp, hpw, hmem, _, hrun⟩ := run_sequential_program Expression.eval
    [(20, "20 PRINT 7", .PrintStmt (.constant 7)), (10, "10 REM", .RemStmt),
     (20, "20 LET X = 1", .LetStmt "X" (.constant 1))] (by decide) (by decide)
  have ht : t = [10, 20] := by
    apply pairwise_lt_unique t [10, 20] hpw (by decide)
    intro x
    rw [hmem x]
    simp only [List.map_cons, List.map_nil, List.mem_cons]
    tauto
  subst ht
  refine ⟨p, hp, fun m fuel hf => ?_⟩
  obtain ⟨h1, h2⟩ := hrun m fuel hf
  have hev : ∀ e ∈ [((20 : Int), "20 PRINT 7", Statement.PrintStmt (Expression.constant 7)),
      (10, "10 REM", Statement.RemStmt),
      (20, "20 LET X = 1", Statement.LetStmt "X" (Expression.constant 1))],
      ∀ x ∈ e.2.2.exps, ∀ st, ∃ v, Expression.eval x st = .ok v := by
    intro e he x hx st
    simp only [List.mem_cons, List.mem_singleton, List.not_mem_nil, or_false] at he
    rcases he with rfl | rfl | rfl <;> simp [Statement.exps] at hx <;> subst hx <;>
      exact ⟨_, rfl⟩
  exact ⟨h1, h2 hev⟩

/-- C17 (the code at the failing input): after lines 10, 20, 30 and 40 are
entered and lines 10 and 20 removed, line 40 is stored with its text.
Entering `40 PRINT +`, whose statement part does not parse, fails inside
`addSourceLine`, before the parser is called: the re-indexing loop looks up
the vector's element 20, which is no longer a key. -/
theorem lineNumberCommand_fails_in_reachable_state :
    ∃ p : Program (Statement Expression),
      runCalls Program.empty
        [.add 10 "10 REM", .add 20 "20 REM", .add 30 "30 REM", .add 40 "40 REM",
          .remove 10, .remove 20] = .ok p ∧
      getSourceLine p 40 = .ok "40 REM" ∧
      lineNumberCommand p 40 "40 PRINT +" (.error .syntaxError) = .error .nullDereference :=
  ⟨⟨[20, 40], [(30, ⟨"30 REM", 2, none⟩), (40, ⟨"40 REM", 3, none⟩)]⟩, rfl, rfl, rfl⟩

end RunClaims

section StatementClaims

variable {Exp : Type}

/-- C12 (the code at the failing input): in the program `10 GOTO 10`,
`20 REM` the jump at line 10 targets the stored line 10 itself.  The driver
finds the register equal to the line it is on, takes the statement for one
that did not jump and goes on to line 20: lines 10 and 20 are executed once
each and the run halts, instead of executing line 10 again. -/
theorem goto_own_line_falls_through :
    ∃ p : Program (Statement Expression),
      enterLines Program.empty
        [(10, "10 GOTO 10", .GoToStmt 10), (20, "20 REM", .RemStmt)] = .ok p ∧
      getParsedStatement p 10 = some (.GoToStmt 10) ∧
      ∀ (m : Machine) (fuel : Nat),
        runCommand Expression.eval p m (fuel + 2) = ⟨m.setCurrentLine (-1), [10, 20], none⟩ := by
  let P : Program (Statement Expression) :=
    ⟨[10, 20], [(10, ⟨"10 GOTO 10", 0, some (.GoToStmt 10)⟩), (20, ⟨"20 REM", 1, some .RemStmt⟩)]⟩
  refine ⟨P, rfl, rfl, ?_⟩
  intro m fuel
  have h0 : getFirstLineNumber P = 10 := rfl
  have h1 := runLoop_fall Expression.eval P (fuel + 1) 10 20 (m.setCurrentLine 10)
    ((m.setCurrentLine 10).setCurrentLine 10) (.GoToStmt 10) (by decide) rfl rfl rfl rfl
  have h2 := runLoop_fall Expression.eval P fuel 20 (-1)
    (((m.setCurrentLine 10).setCurrentLine 10).setCurrentLine 20)
    (((m.setCurrentLine 10).setCurrentLine 10).setCurrentLine 20) .RemStmt (by decide)
    rfl rfl rfl rfl
  unfold runCommand
  rw [h0, h1, h2, runLoop_end]
  rfl

/-- C15 (the code on every jump to a missing line): when the statement of
line `L` moves the register to a line number `T` that is not stored, the next
turn of the loop calls `execute` through the `NULL` that `getParsedStatement`
returns for `T`.  The run stops there with the jump as its last executed
statement, by a null-pointer call and not by a reported error. -/
theorem jump_to_missing_line_null_call (eval : Exp → EvalState → Except Failure Int)
    (p : Program (Statement Exp)) (fuel : Nat) (L T : Int) (m : Machine) (s : Statement Exp)
    (hL : L ≠ -1) (hs : getParsedStatement p L = some s) (hj : s.jumpsTo eval m T)
    (hTL : T ≠ L) (hT1 : T ≠ -1) (hT : mapContainsKey p.storage T = false) :
    runLoop eval p (fuel + 2) L m = ⟨m.setCurrentLine T, [L], some .nullDereference⟩ := by
  rw [runLoop_jumpsTo eval p (fuel + 1) L T m s hL hs hj hTL]
  simp [runLoop, END_PROGRAM_LINE_NUMBER, hT1, getParsedStatement_absent p T hT,
    RunResult.after]

/-- C15 at a concrete input: `10 GOTO 999` with no line 999. -/
theorem jump_to_missing_line_null_call_witness :
    runLoop Expression.eval
      (⟨[10], [(10, ⟨"10 GOTO 999", 0, some (.GoToStmt 999)⟩)]⟩ : Program (Statement Expression))
      2 10 ⟨⟨[], 10⟩, [], []⟩
      = ⟨⟨⟨[], 999⟩, [], []⟩, [10], some .nullDereference⟩ :=
  jump_to_missing_line_null_call Expression.eval _ 0 10 999 _ (.GoToStmt 999)
    (by decide) rfl rfl (by decide) (by decide) rfl

/-- C16 (the code on every line without a statement): when the loop is at a
line `L` for which `getParsedStatement` returns `NULL`, it calls `execute`
through that null pointer.  Nothing is executed at `L`; the run stops by a
null-pointer call and not by a reported error. -/
theorem missing_statement_null_call (eval : Exp → EvalState → Except Failure Int)
    (p : Program (Statement Exp)) (fuel : Nat) (L : Int) (m : Machine)
    (hL : L ≠ -1) (hs : getParsedStatement p L = none) :
    runLoop eval p (fuel + 1) L m = ⟨m, [], some .nullDereference⟩ := by
  simp [runLoop, END_PROGRAM_LINE_NUMBER, hL, hs]

/-- C16 at a concrete input: line 10 is stored with a text that did not
parse. -/
theorem missing_statement_null_call_witness :
    runLoop Expression.eval
      (⟨[10], [(10, ⟨"10 PRINT +", 0, none⟩)]⟩ : Program (Statement Expression))
      1 10 ⟨⟨[], 10⟩, [], []⟩
      = ⟨⟨⟨[], 10⟩, [], []⟩, [], some .nullDereference⟩ :=
  missing_statement_null_call Expression.eval _ 0 10 _ (by decide) rfl

/-- C18: when both operands of an `IF` evaluate, to `l` and `r`, `execute`
raises no error; it sets the register to the target when the operator token is
`=` and `l = r`, or `>` and `l > r`, or `<` and `l < r`, and leaves the machine
as it was in every other case, any other token included.  The variables and
the console are the same in both cases. -/
theorem ifStmt_execute (eval : Exp → EvalState → Except Failure Int) (lhs rhs : Exp)
    (comparison : String) (T : Int) (m : Machine) (l r : Int)
    (hl : eval lhs m.state = .ok l) (hr : eval rhs m.state = .ok r) :
    ∃ m', (Statement.IfStmt lhs rhs comparison T).execute eval m = ⟨m', none⟩ ∧
      m'.state.symbolTable = m.state.symbolTable ∧ m'.output = m.output ∧
      m'.input = m.input ∧
      (((comparison = "=" ∧ l = r) ∨ (comparison = ">" ∧ l > r) ∨ (comparison = "<" ∧ l < r)) →
        m'.state.getCurrentLine = T) ∧
      (¬ ((comparison = "=" ∧ l = r) ∨ (comparison = ">" ∧ l > r) ∨ (comparison = "<" ∧ l < r)) →
        m' = m) := by
  by_cases hc : (comparison = "=" ∧ l = r) ∨ (comparison = ">" ∧ l > r) ∨
      (comparison = "<" ∧ l < r)
  · refine ⟨m.setCurrentLine T, ?_, rfl, rfl, rfl, fun _ => rfl, fun h => absurd hc h⟩
    simp only [Statement.execute, hl, hr]
    rw [if_pos hc]
  · refine ⟨m, ?_, rfl, rfl, rfl, fun h => absurd h hc, fun _ => rfl⟩
    simp only [Statement.execute, hl, hr]
    rw [if_neg hc]

/-- C18 at a concrete input: `IF X < 3 THEN 20` with `X = 1`, at line 30. -/
theorem ifStmt_execute_witness :
    ∃ m', (Statement.IfStmt (Expression.identifier "X") (Expression.constant 3) "<" 20).execute
        Expression.eval ⟨⟨[("X", 1)], 30⟩, [], []⟩ = ⟨m', none⟩ ∧
      m'.state.symbolTable = [("X", 1)] ∧ m'.output = [] ∧ m'.input = [] ∧
      ((("<" = "=" ∧ (1 : Int) = 3) ∨ ("<" = ">" ∧ (1 : Int) > 3) ∨ ("<" = "<" ∧ (1 : Int) < 3)) →
        m'.state.getCurrentLine = 20) ∧
      (¬ (("<" = "=" ∧ (1 : Int) = 3) ∨ ("<" = ">" ∧ (1 : Int) > 3) ∨
          ("<" = "<" ∧ (1 : Int) < 3)) →
        m' = ⟨⟨[("X", 1)], 30⟩, [], []⟩) :=
  ifStmt_execute Expression.eval (.identifier "X") (.constant 3) "<" 20
    ⟨⟨[("X", 1)], 30⟩, [], []⟩ 1 3 rfl rfl

/-- C19: when the expression of an assignment evaluates to `v`, `execute`
raises no error, the variable then has the value `v`, every other variable is
defined or not and has the value as before, and the register and the console
are unchanged; when the evaluation raises an error, `execute` raises the same
error and leaves the machine as it was. -/
theorem letStmt_execute (eval : Exp → EvalState → Except Failure Int) (name : String)
    (exp : Exp) (m : Machine) :
    (∀ v, eval exp m.state = .ok v →
      ∃ m', (Statement.LetStmt name exp).execute eval m = ⟨m', none⟩ ∧
        m'.state.getValue name = v ∧ m'.state.isDefined name = true ∧
        (∀ other, other ≠ name →
          m'.state.getValue other = m.state.getValue other ∧
          m'.state.isDefined other = m.state.isDefined other) ∧
        m'.state.getCurrentLine = m.state.getCurrentLine ∧
        m'.output = m.output ∧ m'.input = m.input) ∧
    (∀ f, eval exp m.state = .error f →
      (Statement.LetStmt name exp).execute eval m = ⟨m, some f⟩) := by
  constructor
  · intro v hv
    refine ⟨{ m with state := m.state.setValue name v }, ?_, getValue_setValue _ _ _,
      isDefined_setValue _ _ _, fun other h => getValue_setValue_other _ _ _ _ h, rfl, rfl, rfl⟩
    simp only [Statement.execute, hv]
  · intro f hf
    simp only [Statement.execute, hf]

/-- C19 at a concrete input: `LET X = Y + 1` with `Y = 4`, and `LET X = Z`
with `Z` never set. -/
theorem letStmt_execute_witness :
    (∃ m', (Statement.LetStmt "X"
          (Expression.compound .plus (.identifier "Y") (.constant 1))).execute
        Expression.eval ⟨⟨[("Y", 4)], 10⟩, [], []⟩ = ⟨m', none⟩ ∧
      m'.state.getValue "X" = 5 ∧ m'.state.getValue "Y" = 4) ∧
    (Statement.LetStmt "X" (Expression.identifier "Z")).execute
        Expression.eval ⟨⟨[("Y", 4)], 10⟩, [], []⟩
      = ⟨⟨⟨[("Y", 4)], 10⟩, [], []⟩, some .undefinedVariable⟩ := by
  constructor
  · obtain ⟨m', h1, h2, _, h4, _⟩ :=
      (letStmt_execute Expression.eval "X"
        (Expression.compound .plus (.identifier "Y") (.constant 1))
        ⟨⟨[("Y", 4)], 10⟩, [], []⟩).1 5 rfl
    exact ⟨m', h1, h2, (h4 "Y" (by decide)).1⟩
  · exact (letStmt_execute Expression.eval "X" (Expression.identifier "Z")
      ⟨⟨[("Y", 4)], 10⟩, [], []⟩).2 .undefinedVariable rfl

/-- C20: when the loop is at a line `L` whose statement is `END`, it executes
that statement and stops: the register is `-1`, the variables and the console
are as before, no other line is executed, whatever lines the program holds,
and the run ends without a failure. -/
theorem endStmt_halts_run (eval : Exp → EvalState → Except Failure Int)
    (p : Program (Statement Exp)) (fuel : Nat) (L : Int) (m : Machine)
    (hL : L ≠ -1) (hs : getParsedStatement p L = some .EndStmt) :
    runLoop eval p (fuel + 1) L m = ⟨m.setCurrentLine (-1), [L], none⟩ := by
  have hj : L ≠ (m.setCurrentLine (-1)).state.currentLine := by
    simpa [Machine.setCurrentLine, EvalState.setCurrentLine] using hL
  rw [runLoop_jump eval p fuel L m (m.setCurrentLine (-1)) .EndStmt hL hs rfl hj]
  simp [Machine.setCurrentLine, EvalState.setCurrentLine, runLoop_end, RunResult.after]

/-- C20 at a concrete input: `10 END` followed by `20 PRINT 7`. -/
theorem endStmt_halts_run_witness :
    runLoop Expression.eval
      (⟨[10, 20], [(10, ⟨"10 END", 0, some .EndStmt⟩),
        (20, ⟨"20 PRINT 7", 1, some (.PrintStmt (.constant 7))⟩)]⟩ :
        Program (Statement Expression))
      1 10 ⟨⟨[], 10⟩, [], []⟩
      = ⟨⟨⟨[], -1⟩, [], []⟩, [10], none⟩ :=
  endStmt_halts_run Expression.eval _ 0 10 _ (by decide) rfl

end StatementClaims

section ExamplePrograms

/-- The program that the three lines of the first example give, in whatever
order they are entered. -/
theorem enterLines_exampleLetPrintEnd (es : List (Int × String × Statement Expression))
    (hperm : es.Perm exampleLetPrintEnd) :
    enterLines Program.empty es = .ok
      ⟨[10, 20, 30],
        [(10, ⟨"10 LET X = 5", 0, some (.LetStmt "X" (.constant 5))⟩),
         (20, ⟨"20 PRINT X", 1, some (.PrintStmt (.identifier "X"))⟩),
         (30, ⟨"30 END", 2, some .EndStmt⟩)]⟩ := by
  have h := List.mem_permutations'.2 hperm
  rw [show exampleLetPrintEnd.permutations' =
    [[(10, "10 LET X = 5", .LetStmt "X" (.constant 5)),
      (20, "20 PRINT X", .PrintStmt (.identifier "X")), (30, "30 END", .EndStmt)],
     [(20, "20 PRINT X", .PrintStmt (.identifier "X")),
      (10, "10 LET X = 5", .LetStmt "X" (.constant 5)), (30, "30 END", .EndStmt)],
     [(20, "20 PRINT X", .PrintStmt (.identifier "X")), (30, "30 END", .EndStmt),
      (10, "10 LET X = 5", .LetStmt "X" (.constant 5))],
     [(10, "10 LET X = 5", .LetStmt "X" (.constant 5)), (30, "30 END", .EndStmt),
      (20, "20 PRINT X", .PrintStmt (.identifier "X"))],
     [(30, "30 END", .EndStmt), (10, "10 LET X = 5", .LetStmt "X" (.constant 5)),
      (20, "20 PRINT X", .PrintStmt (.identifier "X"))],
     [(30, "30 END", .EndStmt), (20, "20 PRINT X", .PrintStmt (.identifier "X")),
      (10, "10 LET X = 5", .LetStmt "X" (.constant 5))]] from rfl] at h
  simp only [List.mem_cons, List.mem_singleton, List.not_mem_nil, or_false] at h
  rcases h with h | h | h | h | h | h <;> subst h <;> rfl

/-- C13: the lines `10 LET X = 5`, `20 PRINT X`, `30 END`, entered in any
order, give a program whose run, from any variable table and console and with
fuel for three statements, executes lines 10, 20 and 30, writes the single
value 5 and ends without a failure, with `X = 5` and the register at `-1`. -/
theorem run_let_print_end (es : List (Int × String × Statement Expression))
    (hperm : es.Perm exampleLetPrintEnd) (m : Machine) (fuel : Nat) (hfuel : 3 ≤ fuel) :
    ∃ p, enterLines Program.empty es = .ok p ∧
      runCommand Expression.eval p m fuel =
        ⟨⟨⟨tablePut m.state.symbolTable "X" 5, -1⟩, m.output ++ [5], m.input⟩,
          [10, 20, 30], none⟩ ∧
      (runCommand Expression.eval p m fuel).machine.state.getValue "X" = 5 := by
  refine ⟨_, enterLines_exampleLetPrintEnd es hperm, ?_⟩
  obtain ⟨k, rfl⟩ : ∃ k, fuel = k + 3 := ⟨fuel - 3, by omega⟩
  obtain ⟨⟨tbl, cl⟩, out, inp⟩ := m
  have hrun : runCommand Expression.eval
      (⟨[10, 20, 30],
        [(10, ⟨"10 LET X = 5", 0, some (.LetStmt "X" (.constant 5))⟩),
         (20, ⟨"20 PRINT X", 1, some (.PrintStmt (.identifier "X"))⟩),
         (30, ⟨"30 END", 2, some .EndStmt⟩)]⟩ : Program (Statement Expression))
      ⟨⟨tbl, cl⟩, out, inp⟩ (k + 3) =
        ⟨⟨⟨tablePut tbl "X" 5, -1⟩, out ++ [5], inp⟩, [10, 20, 30], none⟩ := by
    simp [runCommand, runLoop, runLoop_end, getFirstLineNumber, getParsedStatement,
      getNextLineNumber, mapContainsKey, mapGet, vecGet, Statement.execute, Expression.eval,
      EvalState.isDefined, EvalState.getValue, EvalState.setValue, EvalState.setCurrentLine,
      EvalState.getCurrentLine, Machine.setCurrentLine, tableGet_tablePut, RunResult.after,
      END_PROGRAM_LINE_NUMBER]
  refine ⟨hrun, ?_⟩
  rw [hrun]
  simp [EvalState.getValue, tableGet_tablePut]

/-- C13 at a concrete input: the lines entered as 30, 10, 20, run from a table
that holds `X = 1` and `Y = 2`. -/
theorem run_let_print_end_witness :
    ∃ p, enterLines Program.empty
        [(30, "30 END", Statement.EndStmt),
         (10, "10 LET X = 5", Statement.LetStmt "X" (Expression.constant 5)),
         (20, "20 PRINT X", Statement.PrintStmt (Expression.identifier "X"))] = .ok p ∧
      runCommand Expression.eval p ⟨⟨[("X", 1), ("Y", 2)], 0⟩, [], []⟩ 3 =
        ⟨⟨⟨tablePut [("X", 1), ("Y", 2)] "X" 5, -1⟩, [] ++ [5], []⟩, [10, 20, 30], none⟩ ∧
      (runCommand Expression.eval p ⟨⟨[("X", 1), ("Y", 2)], 0⟩, [], []⟩ 3).machine.state.getValue
        "X" = 5 :=
  run_let_print_end _ (by decide) ⟨⟨[("X", 1), ("Y", 2)], 0⟩, [], []⟩ 3 (le_refl 3)

/-- C14: the lines `10 LET X = 0`, `20 X = X + 1`, `30 IF X < 3 THEN 20`,
`40 PRINT X` give a program whose run, from any variable table and console and
with fuel for eight statements, ends without a failure after the eight
statements 10, 20, 30, 20, 30, 20, 30, 40 and writes the single value 3. -/
theorem run_count_to_three (m : Machine) (fuel : Nat) :
    ∃ p, enterLines Program.empty exampleCountToThree = .ok p ∧
      (runCommand Expression.eval p m (fuel + 8)).failure = none ∧
      (runCommand Expression.eval p m (fuel + 8)).executed = [10, 20, 30, 20, 30, 20, 30, 40] ∧
      (runCommand Expression.eval p m (fuel + 8)).machine.output = m.output ++ [3] ∧
      (runCommand Expression.eval p m (fuel + 8)).machine.state.getValue "X" = 3 := by
  refine ⟨⟨[10, 20, 30, 40],
    [(10, ⟨"10 LET X = 0", 0, some (.LetStmt "X" (.constant 0))⟩),
     (20, ⟨"20 X = X + 1", 1,
        some (.LetStmt "X" (.compound .plus (.identifier "X") (.constant 1)))⟩),
     (30, ⟨"30 IF X < 3 THEN 20", 2, some (.IfStmt (.identifier "X") (.constant 3) "<" 20)⟩),
     (40, ⟨"40 PRINT X", 3, some (.PrintStmt (.identifier "X"))⟩)]⟩, rfl, ?_⟩
  obtain ⟨⟨tbl, cl⟩, out, inp⟩ := m
  simp [runCommand, runLoop, runLoop_end, getFirstLineNumber, getParsedStatement,
    getNextLineNumber, mapContainsKey, mapGet, vecGet, Statement.execute, Expression.eval,
    EvalState.isDefined, EvalState.getValue, EvalState.setValue, EvalState.setCurrentLine,
    EvalState.getCurrentLine, Machine.setCurrentLine, tableGet_tablePut, RunResult.after,
    END_PROGRAM_LINE_NUMBER]

end ExamplePrograms

section ConstructionClaims

variable {Exp : Type}

/-- The constructor of `PRINT` does reject tokens left after its expression. -/
theorem newPrintStmt_rejects_extra_token
    (parseExp : List String → Except Failure (Exp × List String)) (scanner : List String)
    (exp : Exp) (token : String) (rest : List String)
    (h : parseExp scanner = .ok (exp, token :: rest)) :
    newPrintStmt parseExp scanner = .error .syntaxError := by
  simp [newPrintStmt, h, hasMoreTokens]

/-- C21 (the code on every token stream): the constructors of `GOTO`, `INPUT`
and `IF` never ask the scanner whether tokens are left.  `GoToStmt` succeeds
on any stream whose first token is an integer, `InputStmt` on any stream with
a first token, and `IfStmt` on any stream that reads as operand, operator,
operand, `THEN`, integer; each hands back whatever tokens follow, whereas the
claim has them fail unless none follows. -/
theorem constructors_leave_extra_tokens
    (readE : List String → Except Failure (Exp × List String)) :
    (∀ (token : String) (rest : List String) (n : Int), stringToInteger token = .ok n →
      (newGoToStmt (token :: rest) : Except Failure (Statement Exp × List String))
        = .ok (.GoToStmt n, rest)) ∧
    (∀ (token : String) (rest : List String),
      (newInputStmt (token :: rest) : Except Failure (Statement Exp × List String))
        = .ok (.InputStmt token, rest)) ∧
    (∀ (scanner s1 rest : List String) (lhs rhs : Exp) (comparison token : String) (n : Int),
      readE scanner = .ok (lhs, comparison :: s1) →
      readE s1 = .ok (rhs, "THEN" :: token :: rest) →
      stringToInteger token = .ok n →
      newIfStmt readE scanner = .ok (.IfStmt lhs rhs comparison n, rest)) := by
  refine ⟨?_, ?_, ?_⟩
  · intro token rest n h
    simp [newGoToStmt, nextToken, h]
  · intro token rest
    simp [newInputStmt, nextToken]
  · intro scanner s1 rest lhs rhs comparison token n h1 h2 h3
    simp [newIfStmt, nextToken, h1, h2, h3]

/-- C21 at a concrete input: the tails `10 20` after `GOTO`, `X Y` after
`INPUT` and `X < Y THEN 20 30` after `IF` are accepted, with `20`, `Y` and `30`
left in the scanner. -/
theorem constructors_leave_extra_tokens_witness :
    (newGoToStmt ["10", "20"] : Except Failure (Statement Expression × List String))
        = .ok (.GoToStmt 10, ["20"]) ∧
    (newInputStmt ["X", "Y"] : Except Failure (Statement Expression × List String))
        = .ok (.InputStmt "X", ["Y"]) ∧
    newIfStmt exampleReadE ["X", "<", "Y", "THEN", "20", "30"]
        = .ok (.IfStmt (.identifier "X") (.identifier "Y") "<" 20, ["30"]) :=
  ⟨(constructors_leave_extra_tokens exampleReadE).1 "10" ["20"] 10 rfl,
    (constructors_leave_extra_tokens exampleReadE).2.1 "X" ["Y"],
    (constructors_leave_extra_tokens exampleReadE).2.2 ["X", "<", "Y", "THEN", "20", "30"]
      ["Y", "THEN", "20", "30"] ["30"] (.identifier "X") (.identifier "Y") "<" "20" 20
      rfl rfl rfl⟩

end ConstructionClaims

section ForwardRuns

variable {Stmt : Type}

theorem setParsedStatement_indexed (p : Program Stmt) (L : Int) (stmt : Option Stmt)
    (hI : Indexed p) :
    ∃ p', setParsedStatement p L stmt = .ok p' ∧ Indexed p' ∧
      p'.lineNumbers = p.lineNumbers ∧
      ∀ k, mapContainsKey p'.storage k = mapContainsKey p.storage k := by
  cases hm : mapGet p.storage L with
  | none =>
    refine ⟨p, ?_, hI, rfl, fun _ => rfl⟩
    simp [setParsedStatement, mapContainsKey, hm]
  | some sl =>
    refine ⟨{ p with storage := mapPut p.storage L { sl with lineParsed := stmt } },
      setParsedStatement_stored p L stmt sl hm, ⟨hI.1, ?_⟩, rfl, ?_⟩
    · intro k hk
      obtain ⟨sl', hsl', hlast⟩ := hI.2 k hk
      by_cases e : k = L
      · subst e
        rw [hm] at hsl'
        have e' : sl' = sl := (Option.some.inj hsl').symm
        subst e'
        exact ⟨{ sl' with lineParsed := stmt }, by simp [mapGet_mapPut], hlast⟩
      · exact ⟨sl', by simp [mapGet_mapPut, e, hsl'], hlast⟩
    · intro k
      by_cases e : k = L
      · subst e
        simp [mapContainsKey, mapGet_mapPut, hm]
      · simp [mapContainsKey, mapGet_mapPut, e]

theorem addSourceLine_keysInVector (p : Program Stmt) (L : Int) (t : String)
    (hI : Indexed p) (hK : KeysInVector p) :
    ∃ p', addSourceLine p L t = .ok p' ∧ Indexed p' ∧ KeysInVector p' := by
  have hst : ∀ k ∈ p.lineNumbers, mapGet p.storage k ≠ none := by
    intro k hk
    obtain ⟨sl, hsl, _⟩ := hI.2 k hk
    simp [hsl]
  obtain ⟨p1, hadd, _, _, hother, _⟩ := addSourceLine_spec p L t hst
  obtain ⟨p1', hadd', hI1, hmem, _⟩ := addSourceLine_indexed p L t hI
  have hp : p1' = p1 := by
    rw [hadd] at hadd'
    exact (Except.ok.inj hadd').symm
  subst hp
  refine ⟨p1', hadd, hI1, ?_⟩
  intro k hk
  rw [hmem k]
  by_cases e : k = L
  · exact Or.inl e
  · right
    apply hK
    have h := hother k e
    unfold mapContainsKey at hk ⊢
    cases h1 : mapGet p1'.storage k with
    | none => simp [h1] at hk
    | some sl1 =>
      cases h2 : mapGet p.storage k with
      | none => simp [h1, h2] at h
      | some sl2 => rfl

/-- Calls other than `removeSourceLine`, from the empty program, all succeed
in keeping the vector ascending with each record at the last occurrence of its
key, and the keys of the map among the elements of the vector. -/
theorem runCalls_indexed (cs : List (Call Stmt)) :
    ∀ (p0 p : Program Stmt), Indexed p0 → KeysInVector p0 →
      (∀ c ∈ cs, c.isRemove = false) → runCalls p0 cs = .ok p →
      Indexed p ∧ KeysInVector p := by
  induction cs with
  | nil =>
    intro p0 p hI hK _ hrun
    have : p0 = p := Except.ok.inj hrun
    subst this
    exact ⟨hI, hK⟩
  | cons c cs ih =>
    intro p0 p hI hK hcs hrun
    have hc : c.isRemove = false := hcs c (by simp)
    have hrest : ∀ c' ∈ cs, c'.isRemove = false := fun c' h' => hcs c' (by simp [h'])
    have hstep : ∃ p1, c.run p0 = .ok p1 ∧ Indexed p1 ∧ KeysInVector p1 := by
      cases c with
      | add l t => exact addSourceLine_keysInVector p0 l t hI hK
      | setParsed l stmt =>
        obtain ⟨p1, hset, hI1, hv, hkeys⟩ := setParsedStatement_indexed p0 l stmt hI
        refine ⟨p1, hset, hI1, ?_⟩
        intro k hk
        rw [hv]
        exact hK k (by rw [← hkeys k]; exact hk)
      | remove l => simp [Call.isRemove] at hc
      | clearAll =>
        refine ⟨clear p0, rfl, ⟨List.Pairwise.nil, ?_⟩, ?_⟩
        · intro k hk
          simp [clear] at hk
        · intro k hk
          simp [clear, mapContainsKey, mapGet] at hk
    obtain ⟨p1, hrun1, hI1, hK1⟩ := hstep
    simp only [runCalls, hrun1, bind, Except.bind] at hrun
    exact ih p1 p hI1 hK1 hrest hrun

/-- In a state built by entering lines, the line after a line of the vector is
a greater element of the vector, or there is none. -/
theorem getNextLineNumber_progress (p : Program Stmt) (hI : Indexed p) (L : Int)
    (hL : L ∈ p.lineNumbers) :
    ∃ next, getNextLineNumber p L = .ok next ∧
      (next = -1 ∨ (next ∈ p.lineNumbers ∧ L < next)) := by
  obtain ⟨sl, hget, A, B, hAB, hLB, hidx⟩ := hI.2 L hL
  refine ⟨B.headD (-1), getNextLineNumber_indexed p L A B sl hAB hget hidx, ?_⟩
  cases B with
  | nil => exact Or.inl rfl
  | cons b B' =>
    right
    have hs := hI.1
    rw [hAB, List.pairwise_append] at hs
    have h1 : L ≤ b := (List.pairwise_cons.1 hs.2.1).1 b (by simp)
    have h2 : L ≠ b := fun e => hLB (by simp [e])
    exact ⟨by rw [hAB]; simp, lt_of_le_of_ne h1 h2⟩

theorem filter_le_length_lt (t : List Int) (cur next : Int) (hc : cur ∈ t) (h : cur < next) :
    (t.filter (fun x => decide (next ≤ x))).length
      < (t.filter (fun x => decide (cur ≤ x))).length := by
  have e : t.filter (fun x => decide (next ≤ x))
      = (t.filter (fun x => decide (cur ≤ x))).filter (fun x => decide (next ≤ x)) := by
    rw [List.filter_filter]
    apply List.filter_congr
    intro x _
    by_cases hx : next ≤ x
    · have : cur ≤ x := le_trans (le_of_lt h) hx
      simp [hx, this]
    · simp [hx]
  rw [e]
  apply List.length_filter_lt_length_iff_exists.2
  exact ⟨cur, by simp [hc], by simpa using h⟩

end ForwardRuns

section ForwardClaims

variable {Exp : Type}

/-- What one statement that meets `forwardFrom` does at line `L`: it raises the
error of one of its expressions, or it returns with the register still at `L`,
at `-1`, or at a stored line number greater than `L`. -/
theorem execute_forward (eval : Exp → EvalState → Except Failure Int) (s : Statement Exp)
    (m : Machine) (L : Int) (stored : Int → Prop) (hs : s.forwardFrom stored L)
    (hm : m.state.currentLine = L) :
    (∃ f, (s.execute eval m).failure = some f ∧ ∃ x ∈ s.exps, eval x m.state = .error f) ∨
    ((s.execute eval m).failure = none ∧
      ((s.execute eval m).machine.state.currentLine = L ∨
        (s.execute eval m).machine.state.currentLine = -1 ∨
        (L < (s.execute eval m).machine.state.currentLine ∧
          stored (s.execute eval m).machine.state.currentLine))) := by
  cases s with
  | RemStmt => exact Or.inr ⟨rfl, Or.inl hm⟩
  | LetStmt name exp =>
    cases h : eval exp m.state with
    | error f => exact Or.inl ⟨f, by simp [Statement.execute, h], exp, by simp [Statement.exps], h⟩
    | ok v => exact Or.inr ⟨by simp [Statement.execute, h], Or.inl (by
        simpa [Statement.execute, h, EvalState.setValue] using hm)⟩
  | PrintStmt exp =>
    cases h : eval exp m.state with
    | error f => exact Or.inl ⟨f, by simp [Statement.execute, h], exp, by simp [Statement.exps], h⟩
    | ok v => exact Or.inr ⟨by simp [Statement.execute, h], Or.inl (by
        simpa [Statement.execute, h] using hm)⟩
  | InputStmt name => exact absurd hs (by simp [Statement.forwardFrom])
  | GoToStmt T =>
    simp only [Statement.forwardFrom] at hs
    exact Or.inr ⟨rfl, Or.inr (Or.inr hs)⟩
  | IfStmt lhs rhs comparison T =>
    simp only [Statement.forwardFrom] at hs
    cases hl : eval lhs m.state with
    | error f =>
      exact Or.inl ⟨f, by simp [Statement.execute, hl], lhs, by simp [Statement.exps], hl⟩
    | ok l =>
      cases hr : eval rhs m.state with
      | error f =>
        exact Or.inl ⟨f, by simp [Statement.execute, hl, hr], rhs, by simp [Statement.exps], hr⟩
      | ok r =>
        by_cases hc : (comparison = "=" ∧ l = r) ∨ (comparison = ">" ∧ l > r) ∨
            (comparison = "<" ∧ l < r)
        · have he : (Statement.IfStmt lhs rhs comparison T).execute eval m
              = ⟨m.setCurrentLine T, none⟩ := by
            simp only [Statement.execute, hl, hr]
            rw [if_pos hc]
          rw [he]
          exact Or.inr ⟨rfl, Or.inr (Or.inr hs)⟩
        · have he : (Statement.IfStmt lhs rhs comparison T).execute eval m = ⟨m, none⟩ := by
            simp only [Statement.execute, hl, hr]
            rw [if_neg hc]
          rw [he]
          exact Or.inr ⟨rfl, Or.inl hm⟩
  | EndStmt => exact Or.inr ⟨rfl, Or.inr (Or.inl rfl)⟩

/-- The loop of `runCommand` over a program built by entering lines, in which
every line of the vector holds a statement that only goes forward: however
much of the fuel counted by the lines from `cur` on is there, the executed line
numbers increase strictly from `cur`, all are lines of the vector, and the
only failure that can stop the run is the error of an expression. -/
theorem runLoop_forward (eval : Exp → EvalState → Except Failure Int)
    (p : Program (Statement Exp)) (t : List Int) (hI : Indexed p) (hK : KeysInVector p)
    (hsent : mapContainsKey p.storage (-1) = false)
    (ht : ∀ x, x ∈ t ↔ x ∈ p.lineNumbers)
    (hfwd : ∀ L ∈ p.lineNumbers, ∃ s, getParsedStatement p L = some s ∧
      s.forwardFrom (fun T => mapContainsKey p.storage T = true) L) :
    ∀ (fuel : Nat) (cur : Int) (m : Machine), (cur = -1 ∨ cur ∈ p.lineNumbers) →
      m.state.currentLine = cur →
      (t.filter (fun x => decide (cur ≤ x))).length ≤ fuel →
      (runLoop eval p fuel cur m).executed.Pairwise (· < ·) ∧
      (∀ x ∈ (runLoop eval p fuel cur m).executed, cur ≤ x ∧ x ∈ p.lineNumbers) ∧
      (∀ f, (runLoop eval p fuel cur m).failure = some f →
        ∃ L s x st, getParsedStatement p L = some s ∧ x ∈ s.exps ∧ eval x st = .error f) := by
  have hne : ∀ k ∈ p.lineNumbers, k ≠ -1 := by
    intro k hk e
    obtain ⟨sl, hsl, _⟩ := hI.2 k hk
    rw [e] at hsl
    simp [mapContainsKey, hsl] at hsent
  intro fuel
  induction fuel with
  | zero =>
    intro cur m hcur _ hlen
    rcases hcur with hc | hc
    · subst hc
      rw [runLoop_end]
      exact ⟨List.Pairwise.nil, by simp, by simp⟩
    · have : cur ∈ t.filter (fun x => decide (cur ≤ x)) := by simp [(ht cur).2 hc]
      have hpos := List.length_pos_of_mem this
      omega
  | succ fuel ih =>
    intro cur m hcur hm hlen
    rcases hcur with hc | hc
    · subst hc
      rw [runLoop_end]
      exact ⟨List.Pairwise.nil, by simp, by simp⟩
    · have hL : cur ≠ -1 := hne cur hc
      obtain ⟨s, hget, hs⟩ := hfwd cur hc
      have hdec : ∀ next, next ∈ p.lineNumbers → cur < next →
          (t.filter (fun x => decide (next ≤ x))).length ≤ fuel := by
        intro next _ hlt
        have := filter_le_length_lt t cur next ((ht cur).2 hc) hlt
        omega
      have hcons : ∀ (r : RunResult) (next : Int), next ∈ p.lineNumbers → cur < next →
          (r.executed.Pairwise (· < ·) ∧ (∀ x ∈ r.executed, next ≤ x ∧ x ∈ p.lineNumbers) ∧
            (∀ f, r.failure = some f →
              ∃ L s x st, getParsedStatement p L = some s ∧ x ∈ s.exps ∧ eval x st = .error f)) →
          ((r.after cur).executed.Pairwise (· < ·) ∧
            (∀ x ∈ (r.after cur).executed, cur ≤ x ∧ x ∈ p.lineNumbers) ∧
            (∀ f, (r.after cur).failure = some f →
              ∃ L s x st, getParsedStatement p L = some s ∧ x ∈ s.exps ∧
                eval x st = .error f)) := by
        intro r next _ h4 ⟨h1, h2, h3⟩
        refine ⟨?_, ?_, h3⟩
        · simp only [RunResult.after, List.pairwise_cons]
          exact ⟨fun x hx => lt_of_lt_of_le h4 (h2 x hx).1, h1⟩
        · intro x hx
          simp only [RunResult.after, List.mem_cons] at hx
          rcases hx with hx | hx
          · subst hx
            exact ⟨le_refl _, hc⟩
          · exact ⟨le_of_lt (lt_of_lt_of_le h4 (h2 x hx).1), (h2 x hx).2⟩
      have hend : ∀ m' : Machine,
          ((runLoop eval p fuel (-1) m').after cur).executed.Pairwise (· < ·) ∧
          (∀ x ∈ ((runLoop eval p fuel (-1) m').after cur).executed,
            cur ≤ x ∧ x ∈ p.lineNumbers) ∧
          (∀ f, ((runLoop eval p fuel (-1) m').after cur).failure = some f →
            ∃ L s x st, getParsedStatement p L = some s ∧ x ∈ s.exps ∧
              eval x st = .error f) := by
        intro m'
        rw [runLoop_end]
        refine ⟨by simp [RunResult.after], ?_, by simp [RunResult.after]⟩
        intro x hx
        simp only [RunResult.after, List.mem_singleton] at hx
        subst hx
        exact ⟨le_refl _, hc⟩
      rcases execute_forward eval s m cur _ hs hm with ⟨f, hf, x, hx, hxe⟩ | ⟨hf, hreg⟩
      · have he : s.execute eval m = ⟨(s.execute eval m).machine, some f⟩ := by
          rw [← hf]
        rw [runLoop_raise eval p fuel cur m _ s f hL hget he]
        refine ⟨by simp, ?_, ?_⟩
        · intro y hy
          simp only [List.mem_singleton] at hy
          subst hy
          exact ⟨le_refl _, hc⟩
        · intro f' hf'
          simp only [Option.some.injEq] at hf'
          subst hf'
          exact ⟨cur, s, x, m.state, hget, hx, hxe⟩
      · have he : s.execute eval m = ⟨(s.execute eval m).machine, none⟩ := by
          rw [← hf]
        rcases hreg with hreg | hreg | ⟨hlt, hstored⟩
        · obtain ⟨next, hn, hnext⟩ := getNextLineNumber_progress p hI cur hc
          rw [runLoop_fall eval p fuel cur next m _ s hL hget he hreg hn]
          rcases hnext with hnext | ⟨hnv, hnlt⟩
          · subst hnext
            exact hend _
          · exact hcons _ next hnv hnlt (ih next _ (Or.inr hnv) rfl (hdec next hnv hnlt))
        · have hj : cur ≠ (s.execute eval m).machine.state.currentLine := by
            rw [hreg]
            exact hL
          rw [runLoop_jump eval p fuel cur m _ s hL hget he hj, hreg]
          exact hend _
        · have hj : cur ≠ (s.execute eval m).machine.state.currentLine := ne_of_lt hlt
          have hTv := hK _ hstored
          rw [runLoop_jump eval p fuel cur m _ s hL hget he hj]
          exact hcons _ _ hTv hlt (ih _ _ (Or.inr hTv) rfl (hdec _ hTv hlt))

end ForwardClaims

section TerminationClaim

variable {Exp : Type}

/-- C22: a program built from the empty one by calls other than
`removeSourceLine`, in which `-1` is not a stored line and every stored line
holds a statement that is not an `INPUT` and whose `GOTO` or `IF` target is a
stored line number greater than its own, has a strictly ascending list `t` of
its stored line numbers, and every run with fuel for `t.length` statements
executes strictly increasing stored line numbers, at most `t.length` of them,
and can only be stopped by the error of an expression: when the expressions of
the stored statements evaluate without failure, the run ends without a
failure. -/
theorem run_forward_jumps_terminates (eval : Exp → EvalState → Except Failure Int)
    (cs : List (Call (Statement Exp))) (p : Program (Statement Exp))
    (hbuild : runCalls Program.empty cs = .ok p) (hcs : ∀ c ∈ cs, c.isRemove = false)
    (hsent : mapContainsKey p.storage (-1) = false)
    (hfwd : ∀ L, mapContainsKey p.storage L = true →
      ∃ s, getParsedStatement p L = some s ∧
        s.forwardFrom (fun T => mapContainsKey p.storage T = true) L) :
    ∃ t : List Int, t.Pairwise (· < ·) ∧ (∀ x, x ∈ t ↔ mapContainsKey p.storage x = true) ∧
      ∀ (m : Machine) (fuel : Nat), t.length ≤ fuel →
        (runCommand eval p m fuel).executed.Pairwise (· < ·) ∧
        (∀ x ∈ (runCommand eval p m fuel).executed, x ∈ t) ∧
        (runCommand eval p m fuel).executed.length ≤ t.length ∧
        (∀ f, (runCommand eval p m fuel).failure = some f →
          ∃ L s x st, getParsedStatement p L = some s ∧ x ∈ s.exps ∧ eval x st = .error f) ∧
        ((∀ L s, getParsedStatement p L = some s → ∀ x ∈ s.exps, ∀ st, ∃ v, eval x st = .ok v) →
          (runCommand eval p m fuel).failure = none) := by
  have h0 : KeysInVector (Program.empty : Program (Statement Exp)) := by
    intro k hk
    simp [Program.empty, mapContainsKey, mapGet] at hk
  obtain ⟨hI, hK⟩ := runCalls_indexed cs Program.empty p indexed_empty h0 hcs hbuild
  have hstored : ∀ x, x ∈ p.lineNumbers ↔ mapContainsKey p.storage x = true := by
    intro x
    constructor
    · intro hx
      obtain ⟨sl, hsl, _⟩ := hI.2 x hx
      simp [mapContainsKey, hsl]
    · exact hK x
  have hne : ∀ k ∈ p.lineNumbers, k ≠ -1 := by
    intro k hk e
    have := (hstored k).1 hk
    rw [e, hsent] at this
    exact Bool.false_ne_true this
  obtain ⟨t, _, hpw, htm⟩ := traversal_indexed p hI hne p.lineNumbers.length (le_refl _)
  refine ⟨t, hpw, fun x => (htm x).trans (hstored x), ?_⟩
  intro m fuel hfuel
  have hfirst : getFirstLineNumber p = -1 ∨ getFirstLineNumber p ∈ p.lineNumbers := by
    unfold getFirstLineNumber
    cases p.lineNumbers with
    | nil => exact Or.inl rfl
    | cons x _ => exact Or.inr (by simp)
  have hmeasure : (t.filter (fun x => decide (getFirstLineNumber p ≤ x))).length ≤ fuel :=
    le_trans (List.length_filter_le _ _) hfuel
  obtain ⟨h1, h2, h3⟩ := runLoop_forward eval p t hI hK hsent htm
    (fun L hL => hfwd L ((hstored L).1 hL)) fuel (getFirstLineNumber p)
    (m.setCurrentLine (getFirstLineNumber p)) hfirst rfl hmeasure
  have hmem : ∀ x ∈ (runCommand eval p m fuel).executed, x ∈ t :=
    fun x hx => (htm x).2 (h2 x hx).2
  refine ⟨h1, hmem, ?_, h3, ?_⟩
  · have hnd : (runCommand eval p m fuel).executed.Nodup :=
      List.Pairwise.imp (fun hab => ne_of_lt hab) h1
    exact (List.subperm_of_subset hnd hmem).length_le
  · intro hev
    cases hf : (runCommand eval p m fuel).failure with
    | none => rfl
    | some f =>
      obtain ⟨L, s, x, st, hs, hx, hxe⟩ := h3 f hf
      obtain ⟨v, hv⟩ := hev L s hs x hx st
      rw [hv] at hxe
      exact Except.noConfusion hxe

/-- C22 at a concrete input: the program `10 GOTO 30`, `20 PRINT 1`, `30 END`
has three stored lines, and its run executes strictly increasing line numbers,
at most three of them, and ends without a failure. -/
theorem run_forward_jumps_terminates_witness :
    ∃ p : Program (Statement Expression), runCalls Program.empty exampleForwardJump = .ok p ∧
      ∀ (m : Machine) (fuel : Nat), 3 ≤ fuel →
        (runCommand Expression.eval p m fuel).executed.Pairwise (· < ·) ∧
        (runCommand Expression.eval p m fuel).executed.length ≤ 3 ∧
        (runCommand Expression.eval p m fuel).failure = none := by
  let P : Program (Statement Expression) :=
    ⟨[10, 20, 30], [(10, ⟨"10 GOTO 30", 0, some (.GoToStmt 30)⟩),
      (20, ⟨"20 PRINT 1", 1, some (.PrintStmt (.constant 1))⟩),
      (30, ⟨"30 END", 2, some .EndStmt⟩)]⟩
  have hkeys : ∀ L, mapContainsKey P.storage L = true → L = 10 ∨ L = 20 ∨ L = 30 := by
    intro L hL
    by_cases h10 : L = 10
    · exact Or.inl h10
    · by_cases h20 : L = 20
      · exact Or.inr (Or.inl h20)
      · by_cases h30 : L = 30
        · exact Or.inr (Or.inr h30)
        · simp [P, mapContainsKey, mapGet, h10, h20, h30] at hL
  obtain ⟨t, hpw, hmem, hrun⟩ := run_forward_jumps_terminates Expression.eval
    exampleForwardJump P rfl (by decide) rfl (by
      intro L hL
      rcases hkeys L hL with rfl | rfl | rfl
      · exact ⟨.GoToStmt 30, rfl, by decide, rfl⟩
      · exact ⟨.PrintStmt (.constant 1), rfl, trivial⟩
      · exact ⟨.EndStmt, rfl, trivial⟩)
  have ht : t = [10, 20, 30] := by
    apply pairwise_lt_unique t [10, 20, 30] hpw (by decide)
    intro x
    rw [hmem x]
    constructor
    · intro hx
      rcases hkeys x hx with rfl | rfl | rfl <;> simp
    · intro hx
      simp only [List.mem_cons, List.mem_singleton, List.not_mem_nil, or_false] at hx
      rcases hx with rfl | rfl | rfl <;> rfl
  subst ht
  refine ⟨P, rfl, fun m fuel hf => ?_⟩
  obtain ⟨h1, _, h3, _, h5⟩ := hrun m fuel hf
  refine ⟨h1, h3, h5 ?_⟩
  intro L s hs x hx st
  have hL : mapContainsKey P.storage L = true := by
    by_contra hcon
    have : getParsedStatement P L = none := by
      simp only [getParsedStatement]
      rw [if_neg hcon]
    rw [this] at hs
    exact Option.noConfusion hs
  rcases hkeys L hL with rfl | rfl | rfl
  · have e : s = .GoToStmt 30 := (Option.some.inj hs).symm
    subst e
    simp [Statement.exps] at hx
  · have e : s = .PrintStmt (.constant 1) := (Option.some.inj hs).symm
    subst e
    simp only [Statement.exps, List.mem_singleton] at hx
    subst hx
    exact ⟨1, rfl⟩
  · have e : s = .EndStmt := (Option.some.inj hs).symm
    subst e
    simp [Statement.exps] at hx

end TerminationClaim

end Basic
